import Mathlib

/-!
Verification of the neospring Spring '83 server against its specification.

The Go source is shallowly embedded: `time.Time` values are modelled as an
integer count of nanoseconds since the Unix epoch in UTC (the server pins
`time.Local = time.UTC`), byte slices as `List Nat` with values `< 256`,
Go maps as association lists with most-recent-first lookup, and the
external ed25519 / RNG / HTTP-date facilities as oracle parameters.
All divisions in the calendar model are Euclidean (`Int./` here), which is
floor division for the positive literal divisors used; Go's truncating
`/` and `%` on `int` are rendered as `Int.tdiv` / `Int.tmod`.
-/

/-! ## Calendar model for Go's `time` package (proleptic Gregorian, UTC)

Go's `time.Date` / `Year` / `Month` implement the proleptic Gregorian
calendar; we model them with the standard days-from-civil / civil-from-days
algorithms, factored through a 400-year era so that roundtrip facts reduce
to a finite check.
-/

def nsPerSec : Int := 1000000000

def nsPerDay : Int := 86400 * nsPerSec

def minuteNs : Int := 60 * nsPerSec

def hourNs : Int := 3600 * nsPerSec

/-- Day-of-era offset of civil date `(yoe, m, d)` within a 400-year era:
`yoe ∈ [0, 400)` counts years from the era start (eras begin 1 March of
years divisible by 400), `m ∈ [1,12]`, `d ≥ 1`. -/
def dfcCore (yoe m d : Int) : Int :=
  365 * yoe + yoe / 4 - yoe / 100 + (153 * ((m + 9) % 12) + 2) / 5 + d - 1

/-- Days since 1970-01-01 of the proleptic-Gregorian date `(y, m, d)`. -/
def daysFromCivil (y m d : Int) : Int :=
  let yAdj := y - (if m ≤ 2 then 1 else 0)
  let era := yAdj / 400
  let yoe := yAdj - era * 400
  era * 146097 + dfcCore yoe m d - 719468

/-- Inverse of `dfcCore`: recover `(year-within-era-with-feb-adjust, m, d)`
from a day-of-era `doe ∈ [0, 146097)`. -/
def civilCore (doe : Int) : Int × Int × Int :=
  let yoe := (doe - doe / 1460 + doe / 36524 - doe / 146096) / 365
  let doy := doe - (365 * yoe + yoe / 4 - yoe / 100)
  let mp := (5 * doy + 2) / 153
  let d := doy - (153 * mp + 2) / 5 + 1
  let m := mp + (if mp < 10 then 3 else -9)
  (yoe + (if m ≤ 2 then 1 else 0), m, d)

/-- Civil date `(y, m, d)` of the day `z` days after 1970-01-01. -/
def civilFromDays (z : Int) : Int × Int × Int :=
  let zShift := z + 719468
  let era := zShift / 146097
  let doe := zShift - era * 146097
  let c := civilCore doe
  (c.1 + era * 400, c.2.1, c.2.2)

/-- Model of Go `time.Date(y, m, 1, 0, 0, 0, 0, time.UTC)` (month start). -/
def goDate (y m : Int) : Int := daysFromCivil y m 1 * nsPerDay

/-- Model of Go `time.Date(y, m, d, hh, mi, ss, 0, time.UTC)`. -/
def goDateTime (y m d hh mi ss : Int) : Int :=
  (daysFromCivil y m d * 86400 + hh * 3600 + mi * 60 + ss) * nsPerSec

/-- Model of Go `t.Year()`. -/
def goYear (t : Int) : Int := (civilFromDays (t / nsPerDay)).1

/-- Model of Go `t.Month()`. -/
def goMonth (t : Int) : Int := (civilFromDays (t / nsPerDay)).2.1

set_option maxRecDepth 100000 in
set_option maxHeartbeats 4000000 in
/-- Finite core of the calendar roundtrip: checked for every year-of-era and
month. -/
theorem civilCore_dfcCore_fin : ∀ (r : Fin 400) (mm : Fin 12),
    civilCore (dfcCore (r.val : Int) ((mm.val : Int) + 1) 1)
      = ((r.val : Int) + (if ((mm.val : Int) + 1) ≤ 2 then 1 else 0),
          (mm.val : Int) + 1, 1) := by
  decide

/-- Calendar roundtrip core, `Int` form. -/
theorem civilCore_dfcCore (yoe m : Int) (h1 : 0 ≤ yoe) (h2 : yoe < 400)
    (h3 : 1 ≤ m) (h4 : m ≤ 12) :
    civilCore (dfcCore yoe m 1) = (yoe + (if m ≤ 2 then 1 else 0), m, 1) := by
  have hy : ((yoe.toNat : Nat) : Int) = yoe := by omega
  have hm : (((m - 1).toNat : Nat) : Int) + 1 = m := by omega
  have hfin := civilCore_dfcCore_fin ⟨yoe.toNat, by omega⟩ ⟨(m - 1).toNat, by omega⟩
  simp only [hy, hm] at hfin
  exact hfin

/-- `dfcCore` stays within one era. -/
theorem dfcCore_bounds (yoe m : Int) (h1 : 0 ≤ yoe) (h2 : yoe < 400)
    (h3 : 1 ≤ m) (h4 : m ≤ 12) :
    0 ≤ dfcCore yoe m 1 ∧ dfcCore yoe m 1 < 146097 := by
  unfold dfcCore
  omega

/-- Evaluation of `civilFromDays` on an input presented in era/day-of-era
form. -/
theorem civilFromDays_factored (era doe : Int) (h1 : 0 ≤ doe) (h2 : doe < 146097) :
    civilFromDays (era * 146097 + doe - 719468)
      = ((civilCore doe).1 + era * 400, (civilCore doe).2.1, (civilCore doe).2.2) := by
  simp only [civilFromDays]
  have e1 : era * 146097 + doe - 719468 + 719468 = era * 146097 + doe := by ring
  rw [e1]
  have e2 : (era * 146097 + doe) / 146097 = era := by omega
  rw [e2]
  have e3 : era * 146097 + doe - era * 146097 = doe := by ring
  rw [e3]

/-- The calendar functions are mutually inverse on month starts. -/
theorem civilFromDays_daysFromCivil (y m : Int) (h3 : 1 ≤ m) (h4 : m ≤ 12) :
    civilFromDays (daysFromCivil y m 1) = (y, m, 1) := by
  have hyoe1 : 0 ≤ y - (if m ≤ 2 then 1 else 0) - (y - (if m ≤ 2 then 1 else 0)) / 400 * 400 := by
    omega
  have hyoe2 : y - (if m ≤ 2 then 1 else 0) - (y - (if m ≤ 2 then 1 else 0)) / 400 * 400 < 400 := by
    omega
  have hb := dfcCore_bounds (y - (if m ≤ 2 then 1 else 0) - (y - (if m ≤ 2 then 1 else 0)) / 400 * 400) m hyoe1 hyoe2 h3 h4
  have hc := civilCore_dfcCore (y - (if m ≤ 2 then 1 else 0) - (y - (if m ≤ 2 then 1 else 0)) / 400 * 400) m hyoe1 hyoe2 h3 h4
  have hform : daysFromCivil y m 1
      = ((y - (if m ≤ 2 then 1 else 0)) / 400) * 146097
        + dfcCore ((y - (if m ≤ 2 then 1 else 0)) - ((y - (if m ≤ 2 then 1 else 0)) / 400) * 400) m 1
        - 719468 := rfl
  rw [hform, civilFromDays_factored _ _ hb.1 hb.2, hc]
  exact congrArg (fun a => ((a : Int), m, 1))
    (show y - (if m ≤ 2 then 1 else 0) - (y - (if m ≤ 2 then 1 else 0)) / 400 * 400
        + (if m ≤ 2 then 1 else 0) + (y - (if m ≤ 2 then 1 else 0)) / 400 * 400 = y by omega)

/-- Starts of consecutive months never decrease (needed to show the key
validity window is nonempty). -/
theorem daysFromCivil_next_month_ge (y m : Int) (h3 : 1 ≤ m) (h4 : m ≤ 12) :
    daysFromCivil y m 1
      ≤ daysFromCivil (if m = 12 then y + 1 else y) (if m = 12 then 1 else m + 1) 1 := by
  unfold daysFromCivil dfcCore
  interval_cases m <;> simp <;> omega

/-! ## Hex encoding/decoding (Go `encoding/hex`) -/

/-- ASCII decimal digit. -/
def isDigitChar (c : Char) : Bool := 48 ≤ c.toNat && c.toNat ≤ 57

/-- Character class `[0-9a-f]` of the key regex. -/
def isLowerHexChar (c : Char) : Bool :=
  isDigitChar c || (97 ≤ c.toNat && c.toNat ≤ 102)

/-- Value of one hex digit, as in Go's `hex.DecodeString` (which accepts
both cases). -/
def hexCharVal (c : Char) : Option Nat :=
  if 48 ≤ c.toNat && c.toNat ≤ 57 then some (c.toNat - 48)
  else if 97 ≤ c.toNat && c.toNat ≤ 102 then some (c.toNat - 87)
  else if 65 ≤ c.toNat && c.toNat ≤ 70 then some (c.toNat - 55)
  else none

/-- Go `hex.DecodeString`: decodes pairs of hex digits to bytes, failing on
odd length or a non-hex character. -/
def hexDecodePairs : List Char → Option (List Nat)
  | [] => some []
  | [_] => none
  | c1 :: c2 :: rest =>
    match hexCharVal c1, hexCharVal c2, hexDecodePairs rest with
    | some v1, some v2, some bs => some ((16 * v1 + v2) :: bs)
    | _, _, _ => none

/-- Lowercase hex digit of a nibble, as emitted by Go `hex.EncodeToString`. -/
def hexDigitChar (n : Nat) : Char :=
  if n < 10 then Char.ofNat (48 + n) else Char.ofNat (87 + n)

/-- Go `hex.EncodeToString` over a byte slice (bytes are `Nat`s `< 256`). -/
def hexEncode : List Nat → List Char
  | [] => []
  | b :: rest => hexDigitChar (b / 16) :: hexDigitChar (b % 16) :: hexEncode rest

/-! ## The `nskey` module (`internal/nskey/key.go`) -/

/-- Maximum key lifetime, `2 * 365 * 24 * time.Hour` in nanoseconds. -/
def MaxLifetime : Int := 2 * 365 * 24 * hourNs

/-- Test public key defined by the Spring '83 specification
(`nskey.TestPublicKey`). -/
def TestPublicKey : String :=
  "ab589f4dde9fce4180fcf42c7b05185b0a02a5d682e353fa39177995083e0583"

/-- The month group `(0[1-9]|1[0-2])` of the key regex. -/
def monthCharsOK (m1 m2 : Char) : Bool :=
  (m1 == '0' && 49 ≤ m2.toNat && m2.toNat ≤ 57)
    || (m1 == '1' && 48 ≤ m2.toNat && m2.toNat ≤ 50)

/-- Whether a key matches `keyRE`, i.e.
`\A[0-9a-f]{57}83e(0[1-9]|1[0-2])(\d\d)\z`.  The pattern is fixed-length, so
matching is a character-wise check. -/
def keyREMatch (cs : List Char) : Bool :=
  (cs.length == 64) && (cs.take 57).all isLowerHexChar &&
    (match cs.drop 57 with
     | ['8', '3', 'e', m1, m2, y1, y2] =>
         monthCharsOK m1 m2 && isDigitChar y1 && isDigitChar y2
     | _ => false)

/-- The `MM` and `YY` capture groups of `keyRE` interpreted as integers
(Go `strconv.Atoi` on the two-digit groups); only meaningful when
`keyREMatch` holds. -/
def keyDigits (cs : List Char) : Int × Int :=
  match cs.drop 60 with
  | [m1, m2, y1, y2] =>
      (((10 * (m1.toNat - 48) + (m2.toNat - 48) : Nat) : Int),
        ((10 * (y1.toNat - 48) + (y2.toNat - 48) : Nat) : Int))
  | _ => (0, 0)

inductive KeyParseErr where
  | invalid
  | expired
  | notYetValid
  | other (msg : String)
deriving DecidableEq

/-- `nskey.Key`: hex public key string plus its decoded bytes. -/
structure NSKey where
  PublicKey : String
  publicKeyBytes : List Nat
deriving DecidableEq

/-- `relativeMonth(t, relativeMonths)`: month arithmetic on
`(year, month)` with carry/borrow normalization, returning the first
instant of the target month. -/
def relativeMonth (t : Int) (relativeMonths : Int) : Int :=
  let year := goYear t
  let month := goMonth t
  let targetMonth := month + relativeMonths
  let p : Int × Int :=
    if targetMonth = 0 then (year - 1, 12)
    else if targetMonth = 13 then (year + 1, 1)
    else (year, targetMonth)
  goDate p.1 p.2

/-- `parseKeyUnchecked`: hex-decode the key and check for 32 bytes. -/
def parseKeyUnchecked (publicKey : String) : Except KeyParseErr NSKey :=
  match hexDecodePairs publicKey.data with
  | none => .error (.other "error parsing public key hex")
  | some bs =>
      if bs.length = 32 then .ok ⟨publicKey, bs⟩
      else .error (.other "public key has wrong length")

/-- `nskey.ParseKey`: format check, expiry-window check, then decode. -/
def ParseKey (key : String) (now : Int) : Except KeyParseErr NSKey :=
  if keyREMatch key.data then
    let md := keyDigits key.data
    let century := Int.tdiv (goYear now) 100 * 100
    let year := md.2 + century
    let expiryMonth := goDate year md.1
    let expiresAt := relativeMonth expiryMonth 1 - nsPerSec
    if now > expiresAt then .error .expired
    else
      let validAt := expiryMonth - MaxLifetime
      if validAt > now then .error .notYetValid
      else parseKeyUnchecked key
  else .error .invalid

/-! ## Lemmas about `ParseKey` -/

/-- On a month start, `relativeMonth _ 1` is plain month-successor
arithmetic with December carrying into January. -/
theorem relativeMonth_goDate (y m : Int) (h3 : 1 ≤ m) (h4 : m ≤ 12) :
    relativeMonth (goDate y m) 1
      = goDate (if m = 12 then y + 1 else y) (if m = 12 then 1 else m + 1) := by
  have hdiv : goDate y m / nsPerDay = daysFromCivil y m 1 := by
    show daysFromCivil y m 1 * nsPerDay / nsPerDay = daysFromCivil y m 1
    apply Int.mul_ediv_cancel
    norm_num [nsPerDay, nsPerSec]
  have hyr : goYear (goDate y m) = y := by
    unfold goYear
    rw [hdiv, civilFromDays_daysFromCivil y m h3 h4]
  have hmo : goMonth (goDate y m) = m := by
    unfold goMonth
    rw [hdiv, civilFromDays_daysFromCivil y m h3 h4]
  simp only [relativeMonth, hyr, hmo]
  have h0 : ¬ (m + 1 = 0) := by omega
  rcases eq_or_ne m 12 with h12 | h12
  · subst h12
    norm_num
  · have h13 : ¬ (m + 1 = 13) := by omega
    simp [h0, h13, h12]

/-- The key validity window is nonempty: `validAt ≤ expiresAt`. -/
theorem goDate_window (y m : Int) (h3 : 1 ≤ m) (h4 : m ≤ 12) :
    goDate y m - MaxLifetime ≤ relativeMonth (goDate y m) 1 - nsPerSec := by
  rw [relativeMonth_goDate y m h3 h4]
  have hmon := daysFromCivil_next_month_ge y m h3 h4
  have h2 : goDate y m
      ≤ goDate (if m = 12 then y + 1 else y) (if m = 12 then 1 else m + 1) := by
    unfold goDate
    exact mul_le_mul_of_nonneg_right hmon (by norm_num [nsPerDay, nsPerSec])
  simp only [MaxLifetime, hourNs, nsPerSec] at *
  omega

/-- Lower-hex characters decode. -/
theorem hexCharVal_isSome_of_lower (c : Char) (h : isLowerHexChar c = true) :
    (hexCharVal c).isSome = true := by
  unfold isLowerHexChar isDigitChar at h
  unfold hexCharVal
  simp only [Bool.or_eq_true, Bool.and_eq_true, decide_eq_true_eq] at h
  split_ifs <;> simp_all <;> omega

/-- Decimal digits decode. -/
theorem hexCharVal_isSome_of_digit (c : Char) (h : isDigitChar c = true) :
    (hexCharVal c).isSome = true := by
  apply hexCharVal_isSome_of_lower
  simp [isLowerHexChar, h]

/-- Every list of hex characters of even length decodes to
`length / 2` bytes. -/
theorem hexDecodePairs_total :
    ∀ cs : List Char, (∀ c ∈ cs, (hexCharVal c).isSome = true) →
      cs.length % 2 = 0 →
      ∃ bs, hexDecodePairs cs = some bs ∧ bs.length = cs.length / 2
  | [] => by
      intro _ _
      exact ⟨[], rfl, rfl⟩
  | [c] => by
      intro _ h
      simp at h
  | c1 :: c2 :: rest => by
      intro hmem hlen
      obtain ⟨bs, h1, h2⟩ := hexDecodePairs_total rest
        (fun c hc => hmem c (by simp [hc]))
        (by simp at hlen ⊢; omega)
      obtain ⟨v1, hv1⟩ := Option.isSome_iff_exists.mp (hmem c1 (by simp))
      obtain ⟨v2, hv2⟩ := Option.isSome_iff_exists.mp (hmem c2 (by simp))
      refine ⟨(16 * v1 + v2) :: bs, ?_, ?_⟩
      · simp [hexDecodePairs, hv1, hv2, h1]
      · simp [h2]
        omega

/-- A key matching `keyRE` is 64 characters, all hex-decodable, and its
month digits denote a month in `[1, 12]`. -/
theorem keyREMatch_spec (cs : List Char) (h : keyREMatch cs = true) :
    cs.length = 64 ∧ (∀ c ∈ cs, (hexCharVal c).isSome = true)
      ∧ 1 ≤ (keyDigits cs).1 ∧ (keyDigits cs).1 ≤ 12 := by
  unfold keyREMatch at h
  simp only [Bool.and_eq_true, beq_iff_eq, List.all_eq_true] at h
  obtain ⟨⟨hlen, hall⟩, hm⟩ := h
  split at hm
  case h_2 => exact absurd hm (by simp)
  case h_1 m1 m2 y1 y2 heq =>
    simp only [Bool.and_eq_true] at hm
    obtain ⟨⟨hmonth, hy1⟩, hy2⟩ := hm
    have hdrop60 : cs.drop 60 = [m1, m2, y1, y2] := by
      have : cs.drop 60 = (cs.drop 57).drop 3 := by
        rw [List.drop_drop]
      rw [this, heq]
      rfl
    have hm1d : isDigitChar m1 = true ∧ 48 ≤ m2.toNat ∧ m2.toNat ≤ 57 := by
      unfold monthCharsOK at hmonth
      simp only [Bool.or_eq_true, Bool.and_eq_true, beq_iff_eq, decide_eq_true_eq] at hmonth
      rcases hmonth with ⟨⟨h1, h2⟩, h3⟩ | ⟨⟨h1, h2⟩, h3⟩ <;>
        subst h1 <;> exact ⟨by decide, by omega, by omega⟩
    refine ⟨hlen, ?_, ?_, ?_⟩
    · intro c hc
      rw [← List.take_append_drop 57 cs] at hc
      rcases List.mem_append.mp hc with hc | hc
      · exact hexCharVal_isSome_of_lower c (hall c hc)
      · rw [heq] at hc
        simp only [List.mem_cons, List.not_mem_nil, or_false] at hc
        rcases hc with rfl | rfl | rfl | rfl | rfl | rfl | rfl
        · decide
        · decide
        · decide
        · exact hexCharVal_isSome_of_digit _ hm1d.1
        · apply hexCharVal_isSome_of_lower
          simp only [isLowerHexChar, isDigitChar, Bool.or_eq_true, Bool.and_eq_true,
            decide_eq_true_eq]
          left
          omega
        · exact hexCharVal_isSome_of_digit _ hy1
        · exact hexCharVal_isSome_of_digit _ hy2
    · unfold keyDigits
      rw [hdrop60]
      unfold monthCharsOK at hmonth
      simp only [Bool.or_eq_true, Bool.and_eq_true, beq_iff_eq, decide_eq_true_eq] at hmonth
      rcases hmonth with ⟨⟨h1, h2⟩, h3⟩ | ⟨⟨h1, h2⟩, h3⟩ <;> subst h1 <;>
        simp <;> omega
    · unfold keyDigits
      rw [hdrop60]
      unfold monthCharsOK at hmonth
      simp only [Bool.or_eq_true, Bool.and_eq_true, beq_iff_eq, decide_eq_true_eq] at hmonth
      rcases hmonth with ⟨⟨h1, h2⟩, h3⟩ | ⟨⟨h1, h2⟩, h3⟩ <;> subst h1 <;>
        simp <;> omega

/-- `parseKeyUnchecked` never reports the sentinel `invalid` error. -/
theorem parseKeyUnchecked_ne_invalid (s : String) :
    parseKeyUnchecked s ≠ .error KeyParseErr.invalid := by
  unfold parseKeyUnchecked
  split
  · simp
  · split_ifs <;> simp

/-- Decision structure shared by the three outcomes of `ParseKey` after a
regex match. -/
theorem parseKey_decision (A B : Prop) [Decidable A] [Decidable B]
    (u : Except KeyParseErr NSKey) (k : NSKey) (hu : u = Except.ok k)
    (hBA : B → ¬ A) :
    ((if A then Except.error KeyParseErr.expired
        else if B then Except.error KeyParseErr.notYetValid else u)
      = Except.error KeyParseErr.expired ↔ A)
    ∧ ((if A then Except.error KeyParseErr.expired
        else if B then Except.error KeyParseErr.notYetValid else u)
      = Except.error KeyParseErr.notYetValid ↔ B)
    ∧ (¬ A → ¬ B →
        (if A then Except.error KeyParseErr.expired
          else if B then Except.error KeyParseErr.notYetValid else u) = Except.ok k) := by
  subst hu
  by_cases hA : A <;> by_cases hB : B
  · exact absurd hA (hBA hB)
  · simp [hA, hB]
  · simp [hA, hB]
  · simp [hA, hB]

/-- Spec-side formula (claim C2): `year = YY + (now.year − now.year mod 100)`
with Go's truncating division semantics. -/
def specYear (cs : List Char) (now : Int) : Int :=
  (keyDigits cs).2 + (goYear now - Int.tmod (goYear now) 100)

/-- Spec-side formula (claim C2): first second of `(year, MM)` in UTC. -/
def specExpiryMonth (cs : List Char) (now : Int) : Int :=
  goDate (specYear cs now) (keyDigits cs).1

/-- Spec-side formula (claim C2): first second of the next calendar month,
with year carry for December, minus one second. -/
def specExpiresAt (cs : List Char) (now : Int) : Int :=
  goDate (if (keyDigits cs).1 = 12 then specYear cs now + 1 else specYear cs now)
    (if (keyDigits cs).1 = 12 then 1 else (keyDigits cs).1 + 1) - nsPerSec

/-- Spec-side formula (claim C2): `validAt = expiryMonth − 2·365·24h`. -/
def specValidAt (cs : List Char) (now : Int) : Int :=
  specExpiryMonth cs now - 2 * 365 * 24 * hourNs

/-- C2: `ParseKey` returns `ErrKeyInvalid` exactly when the key misses the
regex `^[0-9a-f]{57}83e(0[1-9]|1[0-2])\d\d$`; on a match it is expired iff
`now > expiresAt`, not yet valid iff `now < validAt`, and otherwise
succeeds with a key whose decoded public key is the 32 bytes of the hex
string. -/
theorem c2_ParseKey_spec (key : String) (now : Int) :
    (ParseKey key now = .error .invalid ↔ keyREMatch key.data = false)
    ∧ (keyREMatch key.data = true →
        ∃ bs, hexDecodePairs key.data = some bs ∧ bs.length = 32
          ∧ (ParseKey key now = .error .expired ↔ now > specExpiresAt key.data now)
          ∧ (ParseKey key now = .error .notYetValid ↔ now < specValidAt key.data now)
          ∧ (¬ now > specExpiresAt key.data now → ¬ now < specValidAt key.data now →
              ParseKey key now = .ok ⟨key, bs⟩)) := by
  by_cases hk : keyREMatch key.data = true
  · obtain ⟨h64, hdecAll, hm1, hm12⟩ := keyREMatch_spec key.data hk
    obtain ⟨bs, hdec, hbslen⟩ := hexDecodePairs_total key.data hdecAll (by omega)
    have hbs32 : bs.length = 32 := by omega
    have hok : parseKeyUnchecked key = Except.ok ⟨key, bs⟩ := by
      simp only [parseKeyUnchecked, hdec, hbs32, if_true, eq_self_iff_true]
    have hcent : Int.tdiv (goYear now) 100 * 100 = goYear now - Int.tmod (goYear now) 100 := by
      have h := Int.tdiv_add_tmod (goYear now) 100
      omega
    have hcode : ParseKey key now =
        (if now > relativeMonth
              (goDate ((keyDigits key.data).2 + Int.tdiv (goYear now) 100 * 100)
                (keyDigits key.data).1) 1 - nsPerSec
         then Except.error KeyParseErr.expired
         else if goDate ((keyDigits key.data).2 + Int.tdiv (goYear now) 100 * 100)
              (keyDigits key.data).1 - MaxLifetime > now
         then Except.error KeyParseErr.notYetValid
         else parseKeyUnchecked key) := by
      simp only [ParseKey, hk, eq_self_iff_true, if_true]
    rw [hcent] at hcode
    have hrel := relativeMonth_goDate
      ((keyDigits key.data).2 + (goYear now - Int.tmod (goYear now) 100))
      (keyDigits key.data).1 hm1 hm12
    rw [hrel] at hcode
    have hwin := goDate_window
      ((keyDigits key.data).2 + (goYear now - Int.tmod (goYear now) 100))
      (keyDigits key.data).1 hm1 hm12
    rw [hrel] at hwin
    have hexp : specExpiresAt key.data now =
        goDate (if (keyDigits key.data).1 = 12
            then (keyDigits key.data).2 + (goYear now - Int.tmod (goYear now) 100) + 1
            else (keyDigits key.data).2 + (goYear now - Int.tmod (goYear now) 100))
          (if (keyDigits key.data).1 = 12 then 1 else (keyDigits key.data).1 + 1)
          - nsPerSec := rfl
    have hval : specValidAt key.data now =
        goDate ((keyDigits key.data).2 + (goYear now - Int.tmod (goYear now) 100))
          (keyDigits key.data).1 - MaxLifetime := rfl
    rw [← hexp, ← hval] at hcode
    have hBA : (specValidAt key.data now > now) → ¬ (now > specExpiresAt key.data now) := by
      rw [hexp, hval]
      intro hB hA
      omega
    have hdec3 := parseKey_decision (now > specExpiresAt key.data now)
      (specValidAt key.data now > now) (parseKeyUnchecked key) ⟨key, bs⟩ hok hBA
    constructor
    · rw [hcode]
      constructor
      · intro h
        by_cases hA : now > specExpiresAt key.data now
        · rw [if_pos hA] at h
          exact absurd h (by simp)
        · by_cases hB : specValidAt key.data now > now
          · rw [if_neg hA, if_pos hB] at h
            exact absurd h (by simp)
          · rw [if_neg hA, if_neg hB, hok] at h
            exact absurd h (by simp)
      · intro h
        rw [hk] at h
        exact absurd h (by simp)
    · intro _
      refine ⟨bs, hdec, hbs32, ?_, ?_, ?_⟩
      · rw [hcode]
        exact hdec3.1
      · rw [hcode]
        exact hdec3.2.1
      · intro hnp hnv
        rw [hcode]
        exact hdec3.2.2 hnp hnv
  · have hkf : keyREMatch key.data = false := by
      revert hk
      cases keyREMatch key.data <;> simp
    constructor
    · simp [ParseKey, hkf]
    · intro h
      rw [hkf] at h
      exact absurd h (by simp)

/-! ## The `nskeygen` module (`internal/nskeygen/key_gen.go`) -/

/-- `hexBytes`: split a hex string into bytes; the flag records an odd
number of hex characters, in which case a `"0"` is prepended before
decoding.  (Go panics on invalid hex; the model returns `none` there.) -/
def hexBytes (s : String) : Option (List Nat × Bool) :=
  let oddChars := s.length % 2 == 1
  let s2 := if oddChars then "0" ++ s else s
  match hexDecodePairs s2.data with
  | some sBytes => some (sBytes, oddChars)
  | none => none

/-- `suffixBytesEqual`: bytewise suffix comparison; with `oddChars` the
boundary byte is compared on its low nibble only.  (Go panics when the
suffix is longer than `b`; the model returns `false` there, and every
theorem below assumes the suffix fits.) -/
def suffixBytesEqual (b suffix : List Nat) (oddChars : Bool) : Bool :=
  if suffix.length < 1 then true
  else if oddChars then
    match b.drop (b.length - suffix.length), suffix with
    | bBoundary :: bRest, suffixBoundary :: sRest =>
        (bBoundary % 16 == suffixBoundary % 16) && bRest == sRest
    | _, _ => false
  else b.drop (b.length - suffix.length) == suffix

/-- Modelled from the ed25519 library contract used by
`generateConformingKeyWithSuffix`: `ed25519.GenerateKey` returns a 64-byte
expanded private key whose final 32 bytes are exactly the public key, so
the public key of a generated pair is the tail of its private key. -/
def ed25519PublicOf (priv : List Nat) : List Nat := priv.drop 32

/-- Acceptance test applied by each miner worker to a candidate private
key: `suffixBytesEqual([]byte(privateKey), targetSuffixBytes, oddChars)`.
A keypair is sent on the result channel exactly when this holds. -/
def minerAccepts (targetSuffix : String) (priv : List Nat) : Bool :=
  match hexBytes targetSuffix with
  | some (sBytes, oddChars) => suffixBytesEqual priv sBytes oddChars
  | none => false

/-! ### Hex roundtrip lemmas -/

/-- A lowercase-hex character is the encoding of its value. -/
theorem lower_char_val (c : Char) (h : isLowerHexChar c = true) :
    ∃ v, hexCharVal c = some v ∧ v < 16 ∧ hexDigitChar v = c := by
  unfold isLowerHexChar isDigitChar at h
  simp only [Bool.or_eq_true, Bool.and_eq_true, decide_eq_true_eq] at h
  unfold hexCharVal hexDigitChar
  rcases h with ⟨h1, h2⟩ | ⟨h1, h2⟩
  · refine ⟨c.toNat - 48, ?_, by omega, ?_⟩
    · rw [if_pos (by simp; omega)]
    · rw [if_pos (by omega)]
      rw [show 48 + (c.toNat - 48) = c.toNat by omega]
      exact Char.ofNat_toNat c
  · refine ⟨c.toNat - 87, ?_, by omega, ?_⟩
    · rw [if_neg (by simp; omega), if_pos (by simp; omega)]
    · rw [if_neg (by omega)]
      rw [show 87 + (c.toNat - 87) = c.toNat by omega]
      exact Char.ofNat_toNat c

/-- Any decoded hex digit value is below 16. -/
theorem hexCharVal_lt (c : Char) (v : Nat) (h : hexCharVal c = some v) : v < 16 := by
  unfold hexCharVal at h
  split_ifs at h <;> simp_all <;> omega

/-- Decoded bytes are bytes. -/
theorem hexDecodePairs_bytes_lt :
    ∀ cs : List Char, ∀ bs : List Nat, hexDecodePairs cs = some bs →
      ∀ x ∈ bs, x < 256
  | [], bs => by
      intro h
      simp only [hexDecodePairs, Option.some.injEq] at h
      subst h
      simp
  | [c], bs => by
      intro h
      simp [hexDecodePairs] at h
  | c1 :: c2 :: rest, bs => by
      intro h x hx
      unfold hexDecodePairs at h
      rcases hv1 : hexCharVal c1 with _ | v1 <;> rw [hv1] at h
      · simp at h
      rcases hv2 : hexCharVal c2 with _ | v2 <;> rw [hv2] at h
      · simp at h
      rcases hrest : hexDecodePairs rest with _ | bs' <;> rw [hrest] at h
      · simp at h
      simp only [Option.some.injEq] at h
      subst h
      rcases List.mem_cons.mp hx with rfl | hx'
      · have := hexCharVal_lt c1 v1 hv1
        have := hexCharVal_lt c2 v2 hv2
        omega
      · exact hexDecodePairs_bytes_lt rest bs' hrest x hx'

/-- Hex digits decode back to their value. -/
theorem hexCharVal_hexDigitChar (v : Nat) (h : v < 16) :
    hexCharVal (hexDigitChar v) = some v := by
  interval_cases v <;> decide

/-- Encoding then decoding bytes is the identity. -/
theorem hexDecodePairs_hexEncode :
    ∀ bs : List Nat, (∀ x ∈ bs, x < 256) → hexDecodePairs (hexEncode bs) = some bs
  | [] => by
      intro _
      rfl
  | b :: rest => by
      intro h
      have hb : b < 256 := h b (by simp)
      have ih := hexDecodePairs_hexEncode rest (fun x hx => h x (by simp [hx]))
      show hexDecodePairs
          (hexDigitChar (b / 16) :: hexDigitChar (b % 16) :: hexEncode rest) = _
      unfold hexDecodePairs
      rw [hexCharVal_hexDigitChar (b / 16) (by omega),
        hexCharVal_hexDigitChar (b % 16) (by omega), ih]
      have hbeq : 16 * (b / 16) + b % 16 = b := by omega
      simp [hbeq]

/-- Decoding then encoding lowercase hex is the identity. -/
theorem hexEncode_hexDecodePairs :
    ∀ cs : List Char, (∀ c ∈ cs, isLowerHexChar c = true) →
      ∀ bs, hexDecodePairs cs = some bs → hexEncode bs = cs
  | [] => by
      intro _ bs h
      simp only [hexDecodePairs, Option.some.injEq] at h
      subst h
      rfl
  | [c] => by
      intro _ bs h
      simp [hexDecodePairs] at h
  | c1 :: c2 :: rest => by
      intro hmem bs h
      obtain ⟨v1, hv1, hlt1, hd1⟩ := lower_char_val c1 (hmem c1 (by simp))
      obtain ⟨v2, hv2, hlt2, hd2⟩ := lower_char_val c2 (hmem c2 (by simp))
      unfold hexDecodePairs at h
      rw [hv1, hv2] at h
      rcases hrest : hexDecodePairs rest with _ | bsr <;> rw [hrest] at h
      · simp at h
      · simp only [Option.some.injEq] at h
        subst h
        have ih := hexEncode_hexDecodePairs rest
          (fun c hc => hmem c (by simp [hc])) bsr hrest
        show hexDigitChar ((16 * v1 + v2) / 16)
            :: hexDigitChar ((16 * v1 + v2) % 16) :: hexEncode bsr
            = c1 :: c2 :: rest
        have e1 : (16 * v1 + v2) / 16 = v1 := by omega
        have e2 : (16 * v1 + v2) % 16 = v2 := by omega
        rw [e1, e2, hd1, hd2, ih]

/-- Hex encoding doubles length. -/
theorem hexEncode_length : ∀ bs : List Nat, (hexEncode bs).length = 2 * bs.length
  | [] => rfl
  | b :: rest => by
      have ih := hexEncode_length rest
      simp only [hexEncode, List.length_cons, ih]
      omega

/-- Hex encoding commutes with dropping a prefix. -/
theorem hexEncode_drop :
    ∀ (m : Nat) (bs : List Nat), hexEncode (bs.drop m) = (hexEncode bs).drop (2 * m)
  | 0, _ => by simp
  | m + 1, [] => by simp [hexEncode]
  | m + 1, b :: rest => by
      show hexEncode (rest.drop m)
          = (hexDigitChar (b / 16) :: hexDigitChar (b % 16) :: hexEncode rest).drop (2 * (m + 1))
      rw [hexEncode_drop m rest]
      have e : 2 * (m + 1) = 2 * m + 1 + 1 := by omega
      rw [e]
      rfl

/-- `isSuffixOf` phrased via `drop`. -/
theorem isSuffixOf_iff_drop {α : Type} [BEq α] [LawfulBEq α] (s l : List α) :
    (s.isSuffixOf l = true) ↔ (s.length ≤ l.length ∧ l.drop (l.length - s.length) = s) := by
  constructor
  · intro h
    have hs := List.isSuffixOf_iff_suffix.mp h
    exact ⟨hs.length_le, (List.suffix_iff_eq_drop.mp hs).symm⟩
  · intro h
    exact List.isSuffixOf_iff_suffix.mpr (List.suffix_iff_eq_drop.mpr h.2.symm)

/-- Hex encoding is injective on byte lists. -/
theorem hexEncode_inj (xs ys : List Nat) (hx : ∀ x ∈ xs, x < 256)
    (hy : ∀ y ∈ ys, y < 256) (h : hexEncode xs = hexEncode ys) : xs = ys := by
  have h1 := hexDecodePairs_hexEncode xs hx
  have h2 := hexDecodePairs_hexEncode ys hy
  rw [h, h2] at h1
  exact (Option.some.injEq _ _ ▸ h1.symm)

/-- Core equivalence: the bytewise suffix test against the `hexBytes`
decomposition of `s` agrees with the string-suffix test against the
lowercase hex encoding. -/
theorem suffixBytesEqual_iff_isSuffix (b : List Nat) (s : String)
    (hb : ∀ x ∈ b, x < 256) (hs : ∀ c ∈ s.data, isLowerHexChar c = true)
    (hlen : s.data.length ≤ 2 * b.length) :
    ∃ sb odd, hexBytes s = some (sb, odd)
      ∧ (suffixBytesEqual b sb odd = true ↔ s.data.isSuffixOf (hexEncode b) = true) := by
  have hsl : s.length = s.data.length := rfl
  have hsome : ∀ c ∈ s.data, (hexCharVal c).isSome = true := by
    intro c hc
    obtain ⟨v, hv, _, _⟩ := lower_char_val c (hs c hc)
    simp [hv]
  by_cases hodd : s.length % 2 = 1
  · -- odd number of hex characters
    rcases hd : s.data with _ | ⟨c0, srest⟩
    · rw [hsl, hd] at hodd
      simp at hodd
    obtain ⟨v0, hv0, hvlt, hdig⟩ := lower_char_val c0 (hs c0 (by rw [hd]; simp))
    obtain ⟨sbr, hdecr, hlenr⟩ := hexDecodePairs_total srest
      (fun c hc => hsome c (by rw [hd]; simp [hc]))
      (by rw [hsl, hd] at hodd; simp at hodd; omega)
    have hdec : hexDecodePairs ('0' :: s.data) = some (v0 :: sbr) := by
      rw [hd]
      unfold hexDecodePairs
      rw [show hexCharVal '0' = some 0 from by decide, hv0, hdecr]
      simp
    have hbytes : hexBytes s = some (v0 :: sbr, true) := by
      unfold hexBytes
      rw [show (s.length % 2 == 1) = true from by simp [hodd]]
      simp only [if_true]
      rw [show ("0" ++ s).data = '0' :: s.data from by simp, hdec]
    have hk1 : sbr.length + 1 ≤ b.length := by
      rw [hd] at hlen
      simp at hlen
      omega
    have hj : b.length - (sbr.length + 1) < b.length := by omega
    obtain ⟨bb, hsplit⟩ : ∃ bb, b.drop (b.length - (sbr.length + 1))
        = bb :: b.drop (b.length - (sbr.length + 1) + 1) :=
      ⟨_, @List.drop_eq_getElem_cons Nat (b.length - (sbr.length + 1)) b hj⟩
    have hjdrop : b.length - (sbr.length + 1) + 1 = b.length - sbr.length := by omega
    rw [hjdrop] at hsplit
    have hbb : bb < 256 := by
      apply hb
      apply List.drop_subset (b.length - (sbr.length + 1))
      rw [hsplit]
      simp
    refine ⟨v0 :: sbr, true, hbytes, ?_⟩
    have hL : suffixBytesEqual b (v0 :: sbr) true = true
        ↔ (bb % 16 = v0 ∧ b.drop (b.length - sbr.length) = sbr) := by
      unfold suffixBytesEqual
      rw [if_neg (by simp)]
      rw [if_pos rfl]
      rw [show (v0 :: sbr).length = sbr.length + 1 from rfl, hsplit]
      simp only [Bool.and_eq_true, beq_iff_eq]
      have : v0 % 16 = v0 := by omega
      rw [this]
    have hR : s.data.isSuffixOf (hexEncode b) = true
        ↔ (hexDigitChar (bb % 16) = c0 ∧ hexEncode (b.drop (b.length - sbr.length)) = srest) := by
      rw [isSuffixOf_iff_drop]
      have hlenc : (hexEncode b).length = 2 * b.length := hexEncode_length b
      have hsd : s.data.length = 2 * sbr.length + 1 := by
        have h1 : s.data.length = srest.length + 1 := by
          rw [hd]
          rfl
        omega
      have harith : (hexEncode b).length - s.data.length
          = 2 * (b.length - (sbr.length + 1)) + 1 := by
        rw [hlenc, hsd]
        omega
      have hdropeq : (hexEncode b).drop (2 * (b.length - (sbr.length + 1)) + 1)
          = hexDigitChar (bb % 16) :: hexEncode (b.drop (b.length - sbr.length)) := by
        have h1 : (hexEncode b).drop (2 * (b.length - (sbr.length + 1)) + 1)
            = ((hexEncode b).drop (2 * (b.length - (sbr.length + 1)))).drop 1 := by
          rw [List.drop_drop]
        rw [h1, ← hexEncode_drop, hsplit]
        rfl
      rw [harith, hdropeq, hd]
      constructor
      · intro h
        have h2 := h.2
        simp only [List.cons.injEq] at h2
        exact ⟨h2.1, h2.2⟩
      · intro h
        refine ⟨?_, by rw [h.1, h.2]⟩
        rw [show (c0 :: srest).length = s.data.length from by rw [hd]]
        omega
    rw [hd] at hR
    rw [hL, hR]
    have hsrest : hexEncode sbr = srest := hexEncode_hexDecodePairs srest
      (fun c hc => hs c (by rw [hd]; simp [hc])) sbr hdecr
    have hfst : bb % 16 = v0 ↔ hexDigitChar (bb % 16) = c0 := by
      constructor
      · intro h
        rw [h, hdig]
      · intro h
        have h1 := hexCharVal_hexDigitChar (bb % 16) (by omega)
        rw [h, hv0] at h1
        exact (Option.some.inj h1).symm
    have hsnd : b.drop (b.length - sbr.length) = sbr
        ↔ hexEncode (b.drop (b.length - sbr.length)) = srest := by
      constructor
      · intro h
        rw [h, hsrest]
      · intro h
        apply hexEncode_inj
        · exact fun x hx => hb x (List.drop_subset _ _ hx)
        · exact hexDecodePairs_bytes_lt srest sbr hdecr
        · rw [h, hsrest]
    exact and_congr hfst hsnd
  · -- even number of hex characters
    have heven : s.data.length % 2 = 0 := by
      rw [← hsl]
      omega
    obtain ⟨sb, hdec, hsblen⟩ := hexDecodePairs_total s.data hsome heven
    have hbytes : hexBytes s = some (sb, false) := by
      unfold hexBytes
      rw [show (s.length % 2 == 1) = false from by simp; omega]
      simp only [Bool.false_eq_true, if_false]
      rw [hdec]
    refine ⟨sb, false, hbytes, ?_⟩
    by_cases hnil : sb.length < 1
    · have hsb0 : sb = [] := by
        cases sb
        · rfl
        · simp at hnil
      have hsd0 : s.data = [] := by
        have : s.data.length = 0 := by omega
        exact List.length_eq_zero.mp this
      rw [hsb0, hsd0]
      simp [suffixBytesEqual]
    · have hkb : sb.length ≤ b.length := by omega
      have hL : suffixBytesEqual b sb false = true ↔ b.drop (b.length - sb.length) = sb := by
        unfold suffixBytesEqual
        rw [if_neg (by omega)]
        simp
      have hsenc : hexEncode sb = s.data := hexEncode_hexDecodePairs s.data hs sb hdec
      have hR : s.data.isSuffixOf (hexEncode b) = true
          ↔ hexEncode (b.drop (b.length - sb.length)) = s.data := by
        rw [isSuffixOf_iff_drop]
        have hlenc := hexEncode_length b
        have harith : (hexEncode b).length - s.data.length = 2 * (b.length - sb.length) := by
          rw [hlenc]
          omega
        rw [harith, ← hexEncode_drop]
        constructor
        · exact fun h => h.2
        · intro h
          exact ⟨by rw [hlenc]; omega, h⟩
      rw [hL, hR]
      constructor
      · intro h
        rw [h, hsenc]
      · intro h
        apply hexEncode_inj
        · exact fun x hx => hb x (List.drop_subset _ _ hx)
        · exact hexDecodePairs_bytes_lt s.data sb hdec
        · rw [h, hsenc]

/-- A successful hex decode consumed an even number of characters. -/
theorem hexDecodePairs_length :
    ∀ (cs : List Char) (bs : List Nat), hexDecodePairs cs = some bs →
      cs.length = 2 * bs.length
  | [], bs => by
      intro h
      simp only [hexDecodePairs, Option.some.injEq] at h
      subst h
      rfl
  | [c], bs => by
      intro h
      simp [hexDecodePairs] at h
  | c1 :: c2 :: rest, bs => by
      intro h
      unfold hexDecodePairs at h
      rcases hv1 : hexCharVal c1 with _ | v1 <;> rw [hv1] at h
      · simp at h
      rcases hv2 : hexCharVal c2 with _ | v2 <;> rw [hv2] at h
      · simp at h
      rcases hrest : hexDecodePairs rest with _ | bsr <;> rw [hrest] at h
      · simp at h
      simp only [Option.some.injEq] at h
      subst h
      have ih := hexDecodePairs_length rest bsr hrest
      simp only [List.length_cons]
      omega

/-- The byte count produced by `hexBytes`. -/
theorem hexBytes_length (s : String) (sb : List Nat) (odd : Bool)
    (h : hexBytes s = some (sb, odd)) : 2 * sb.length ≤ s.length + 1 := by
  have hsl : s.length = s.data.length := rfl
  by_cases hpar : s.length % 2 = 1
  · have hform : hexBytes s = (match hexDecodePairs ("0" ++ s).data with
        | some sBytes => some (sBytes, s.length % 2 == 1)
        | none => none) := by
      simp only [hexBytes]
      rw [if_pos (by simp [hpar])]
    rw [hform] at h
    rcases hdec : hexDecodePairs ("0" ++ s).data with _ | bs <;> rw [hdec] at h
    · simp at h
    · simp only [Option.some.injEq, Prod.mk.injEq] at h
      obtain ⟨h1, h2⟩ := h
      subst h1
      have hlen := hexDecodePairs_length _ bs hdec
      have h0 : ("0" ++ s).data.length = s.data.length + 1 := by simp
      omega
  · have hform : hexBytes s = (match hexDecodePairs s.data with
        | some sBytes => some (sBytes, s.length % 2 == 1)
        | none => none) := by
      simp only [hexBytes]
      rw [if_neg (by simp [hpar])]
    rw [hform] at h
    rcases hdec : hexDecodePairs s.data with _ | bs <;> rw [hdec] at h
    · simp at h
    · simp only [Option.some.injEq, Prod.mk.injEq] at h
      obtain ⟨h1, h2⟩ := h
      subst h1
      have hlen := hexDecodePairs_length _ bs hdec
      omega

/-- The suffix check only inspects the final 32 bytes of a 64-byte private
key when the suffix fits in 32 bytes. -/
theorem suffixBytesEqual_tail (priv sb : List Nat) (odd : Bool)
    (hp : priv.length = 64) (hsb : sb.length ≤ 32) :
    suffixBytesEqual priv sb odd = suffixBytesEqual (priv.drop 32) sb odd := by
  have hdl : (priv.drop 32).length = 32 := by simp [hp]
  have heq : (priv.drop 32).drop ((priv.drop 32).length - sb.length)
      = priv.drop (priv.length - sb.length) := by
    rw [List.drop_drop]
    congr 1
    omega
  unfold suffixBytesEqual
  rw [heq]

/-- C8: the optimized byte-wise suffix check agrees with the naive
hex-encoding check: for every byte slice `b` and lowercase hex string `s`
of length at most `2·len(b)`, with `(sb, odd) = hexBytes(s)`,
`suffixBytesEqual(b, sb, odd)` holds iff the lowercase hex encoding of `b`
ends with `s`. -/
theorem c8_suffixBytesEqual_iff_hexEncode_suffix (b : List Nat) (s : String)
    (hb : ∀ x ∈ b, x < 256) (hs : ∀ c ∈ s.data, isLowerHexChar c = true)
    (hlen : s.data.length ≤ 2 * b.length) :
    ∃ sb odd, hexBytes s = some (sb, odd)
      ∧ (suffixBytesEqual b sb odd = true
          ↔ s.data.isSuffixOf (hexEncode b) = true) :=
  suffixBytesEqual_iff_isSuffix b s hb hs hlen

/-- Witness for C8: the odd-length suffix `"678"` against bytes
`[0x34, 0x56, 0x78]`. -/
theorem c8_suffixBytesEqual_iff_hexEncode_suffix_witness :
    ((∀ x ∈ ([52, 86, 120] : List Nat), x < 256)
        ∧ (∀ c ∈ "678".data, isLowerHexChar c = true)
        ∧ "678".data.length ≤ 2 * ([52, 86, 120] : List Nat).length)
      ∧ (∃ sb odd, hexBytes "678" = some (sb, odd)
          ∧ (suffixBytesEqual [52, 86, 120] sb odd = true
              ↔ "678".data.isSuffixOf (hexEncode [52, 86, 120]) = true)) :=
  ⟨⟨by decide, by decide, by decide⟩,
    c8_suffixBytesEqual_iff_hexEncode_suffix [52, 86, 120] "678"
      (by decide) (by decide) (by decide)⟩

/-- C7: a private key accepted by the miner loop yields a public key (its
final 32 bytes, per the ed25519 contract) whose lowercase hex encoding
ends with the requested suffix, for suffixes of at most 64 hex
characters. -/
theorem c7_minerAccepts_public_suffix (targetSuffix : String) (priv : List Nat)
    (hs : ∀ c ∈ targetSuffix.data, isLowerHexChar c = true)
    (hslen : targetSuffix.length ≤ 64)
    (hp : priv.length = 64) (hpb : ∀ x ∈ priv, x < 256)
    (hacc : minerAccepts targetSuffix priv = true) :
    targetSuffix.data.isSuffixOf (hexEncode (ed25519PublicOf priv)) = true := by
  have hpub : ∀ x ∈ ed25519PublicOf priv, x < 256 :=
    fun x hx => hpb x (List.drop_subset _ _ hx)
  have hpublen : (ed25519PublicOf priv).length = 32 := by
    simp [ed25519PublicOf, hp]
  have hsl : targetSuffix.length = targetSuffix.data.length := rfl
  have hlen2 : targetSuffix.data.length ≤ 2 * (ed25519PublicOf priv).length := by
    rw [hpublen]
    omega
  obtain ⟨sb, odd, hbytes, hiff⟩ := suffixBytesEqual_iff_isSuffix
    (ed25519PublicOf priv) targetSuffix hpub hs hlen2
  unfold minerAccepts at hacc
  rw [hbytes] at hacc
  have hacc2 : suffixBytesEqual priv sb odd = true := hacc
  have hsblen : sb.length ≤ 32 := by
    have := hexBytes_length targetSuffix sb odd hbytes
    omega
  rw [suffixBytesEqual_tail priv sb odd hp hsblen] at hacc2
  have hacc3 : suffixBytesEqual (ed25519PublicOf priv) sb odd = true := hacc2
  exact hiff.mp hacc3

/-- Witness for C7: a 64-byte private key ending in `0xaa` is accepted for
suffix `"aa"` and its public half hex-ends in `"aa"`. -/
theorem c7_minerAccepts_public_suffix_witness :
    minerAccepts "aa" (List.replicate 63 0 ++ [170]) = true
      ∧ "aa".data.isSuffixOf
          (hexEncode (ed25519PublicOf (List.replicate 63 0 ++ [170]))) = true :=
  ⟨by decide,
    c7_minerAccepts_public_suffix "aa" (List.replicate 63 0 ++ [170])
      (by decide) (by decide) (by decide) (by decide) (by decide)⟩

deriving instance DecidableEq for Except

/-- Sample key used by the repository's own tests (`e90e…1124`, expiry
November 2024). -/
def c2Key : String :=
  "e90e9091b13a6e5194c1fed2728d1fdb6de7df362497d877b8c0b8f0883e1124"

/-- The stable test instant `2022-11-09T10:11:12Z`. -/
def c2Now : Int := goDateTime 2022 11 9 10 11 12

/-- Witness for C2 at the sample key and instant. -/
theorem c2_ParseKey_spec_witness :
    keyREMatch c2Key.data = true
      ∧ (∃ bs, hexDecodePairs c2Key.data = some bs ∧ bs.length = 32
          ∧ (ParseKey c2Key c2Now = .error .expired
              ↔ c2Now > specExpiresAt c2Key.data c2Now)
          ∧ (ParseKey c2Key c2Now = .error .notYetValid
              ↔ c2Now < specValidAt c2Key.data c2Now)
          ∧ (¬ c2Now > specExpiresAt c2Key.data c2Now →
              ¬ c2Now < specValidAt c2Key.data c2Now →
              ParseKey c2Key c2Now = .ok ⟨c2Key, bs⟩)) :=
  ⟨by decide, (c2_ParseKey_spec c2Key c2Now).2 (by decide)⟩

/-! ## The `nsstore` module (`internal/nsstore`) -/

/-- `nsstore.Board`. -/
structure Board where
  Content : String
  Signature : String
  Timestamp : Int
deriving DecidableEq

/-- `nsstore.MaxContentAge`: 22 days. -/
def MaxContentAge : Int := 22 * 24 * hourNs

inductive StoreErr where
  | keyNotFound
  | other (msg : String)
deriving DecidableEq

/-- A Go `map[string]*nsstore.Board` as an association list where the most
recent insertion shadows earlier ones. -/
abbrev Store := List (String × Board)

def storeLookup : Store → String → Option Board
  | [], _ => none
  | (k, b) :: rest, key => if k == key then some b else storeLookup rest key

/-- Map update (`s.boards[key] = board`). -/
def storePut (key : String) (board : Board) (s : Store) : Store :=
  (key, board) :: s

/-- `MemoryStore.Get`: absent keys and keys whose board is older than 22
days report `ErrKeyNotFound`. -/
def memGet (timeNow : Int) (s : Store) (key : String) : Except StoreErr Board :=
  match storeLookup s key with
  | none => .error .keyNotFound
  | some board =>
      if timeNow > board.Timestamp + MaxContentAge then .error .keyNotFound
      else .ok board

/-- State of `GCPStorageStore`: the GCP bucket contents plus the
in-process memory cache. -/
structure GCPState where
  storage : Store
  cache : Store
deriving DecidableEq

/-- `GCPStorageStore.Get`: consult the memory cache, then the bucket;
missing objects map to `ErrKeyNotFound`, stale boards are pruned
defensively, and bucket hits are written through to the cache. -/
def gcpGet (timeNow : Int) (st : GCPState) (key : String) :
    Except StoreErr (Board × GCPState) :=
  match memGet timeNow st.cache key with
  | .ok board => .ok (board, st)
  | .error _ =>
    match storeLookup st.storage key with
    | none => .error .keyNotFound
    | some storageBoard =>
        if timeNow > storageBoard.Timestamp + MaxContentAge then .error .keyNotFound
        else .ok (storageBoard,
          { storage := st.storage, cache := storePut key storageBoard st.cache })

/-- `GCPStorageStore.Put`: write the object, then populate the cache. -/
def gcpPut (key : String) (board : Board) (st : GCPState) : GCPState :=
  { storage := storePut key board st.storage, cache := storePut key board st.cache }

/-- C3: for both stores, `Get` returns `NotFound` whenever
`now > timestamp + 22d` — with no reaper in the model at all — and when
the board is absent; otherwise it returns the stored board unchanged. -/
theorem c3_get_notFound_after_22_days (now : Int) (key : String) (b : Board)
    (s : Store) (st : GCPState) :
    ((storeLookup s key = some b →
        ((now > b.Timestamp + MaxContentAge → memGet now s key = .error .keyNotFound)
          ∧ (¬ now > b.Timestamp + MaxContentAge → memGet now s key = .ok b)))
      ∧ (storeLookup s key = none → memGet now s key = .error .keyNotFound))
    ∧ ((storeLookup st.storage key = some b →
          (storeLookup st.cache key = none ∨ storeLookup st.cache key = some b) →
          ((now > b.Timestamp + MaxContentAge → gcpGet now st key = .error .keyNotFound)
            ∧ (¬ now > b.Timestamp + MaxContentAge →
                ∃ st2, gcpGet now st key = .ok (b, st2))))
        ∧ (storeLookup st.storage key = none → storeLookup st.cache key = none →
            gcpGet now st key = .error .keyNotFound)) := by
  have hmem : ∀ (s2 : Store), storeLookup s2 key = some b →
      ((now > b.Timestamp + MaxContentAge → memGet now s2 key = .error .keyNotFound)
        ∧ (¬ now > b.Timestamp + MaxContentAge → memGet now s2 key = .ok b)) := by
    intro s2 hl
    constructor
    · intro hexp
      simp [memGet, hl, hexp]
    · intro hexp
      simp [memGet, hl, hexp]
  have hmemN : ∀ (s2 : Store), storeLookup s2 key = none →
      memGet now s2 key = .error .keyNotFound := by
    intro s2 hl
    simp [memGet, hl]
  refine ⟨⟨hmem s, hmemN s⟩, ?_, ?_⟩
  · intro hstor hcache
    constructor
    · intro hexp
      rcases hcache with hc | hc
      · simp [gcpGet, hmemN st.cache hc, hstor, hexp]
      · simp [gcpGet, (hmem st.cache hc).1 hexp, hstor, hexp]
    · intro hexp
      rcases hcache with hc | hc
      · refine ⟨{ storage := st.storage, cache := storePut key b st.cache }, ?_⟩
        simp [gcpGet, hmemN st.cache hc, hstor, hexp]
      · refine ⟨st, ?_⟩
        simp [gcpGet, (hmem st.cache hc).2 hexp]
  · intro hstor hcache
    simp [gcpGet, hmemN st.cache hcache, hstor]

/-- Witness for C3: a fresh hit, an expired hit, and a bucket hit. -/
theorem c3_get_notFound_after_22_days_witness :
    memGet 0 [("k", ⟨"hi", "sig", 0⟩)] "k" = .ok ⟨"hi", "sig", 0⟩
      ∧ memGet (2 * MaxContentAge) [("k", ⟨"hi", "sig", 0⟩)] "k" = .error .keyNotFound
      ∧ (∃ st2, gcpGet 0 ⟨[("k", ⟨"hi", "sig", 0⟩)], []⟩ "k"
          = .ok (⟨"hi", "sig", 0⟩, st2)) :=
  ⟨((c3_get_notFound_after_22_days 0 "k" ⟨"hi", "sig", 0⟩
        [("k", ⟨"hi", "sig", 0⟩)] ⟨[], []⟩).1.1 (by decide)).2 (by decide),
    ((c3_get_notFound_after_22_days (2 * MaxContentAge) "k" ⟨"hi", "sig", 0⟩
        [("k", ⟨"hi", "sig", 0⟩)] ⟨[], []⟩).1.1 (by decide)).1 (by decide),
    ((c3_get_notFound_after_22_days 0 "k" ⟨"hi", "sig", 0⟩
        [] ⟨[("k", ⟨"hi", "sig", 0⟩)], []⟩).2.1 (by decide)
      (Or.inl (by decide))).2 (by decide)⟩

/-! ## The server (`server.go`) -/

/-- The protocol-mandated infernal key seeding every deny list. -/
def InfernalPublicKey : String :=
  "d17eef211f510479ee6696495a2589f7e9fb055c2576749747d93444883e0123"

def MaxContentSize : Nat := 2217

/-- `TimestampTolerance`: 5 minutes of clock-skew allowance. -/
def TimestampTolerance : Int := 5 * minuteNs

/-- Go `%q` on a string with no characters needing escapes (all keys and
header values in scope here are plain ASCII without quotes or
backslashes). -/
def goQuote (s : String) : String := "\"" ++ s ++ "\""

def ErrMessageContentTooLarge : String :=
  "Content is larger than the maximum allowed size of 2217 bytes."

def ErrMessageDeniedKey : String := "This key is denied."

def ErrMessageKeyExpired : String :=
  "The given key is expired. The last four digits `MMYY` represent a month and year number which is now allowed to exceed the current month and year."

def ErrMessageKeyInvalid : String :=
  "The given key is invalid. It should be exactly 64 characters in length and be suffixed with `83eMMYY` where `MM` is a valid month number and `YY` are the last two digits of a year."

def ErrMessageKeyNotYetValid : String :=
  "The given key is not yet valid. The last four digits `MMYY` represent a month and year number which must be within two years of the current month and year."

def ErrMessageTestKey : String :=
  "This request was made with Spring '83's test key, which is always rejected according to the specification."

def ErrMessageSignatureBadLength : String :=
  "Signature in the `Spring-Signature` header should be exactly 64 bytes long."

def ErrMessageSignatureInvalid : String :=
  "Payload contents could not be verified against the signature in the `Spring-Signature` header."

def ErrMessageSignatureMissing : String :=
  "Missing `Spring-Signature` header which should contain a signature for the payload."

def ErrMessageSignatureUnparseable : String :=
  "Signature in the `Spring-Signature` header could not be decoded from hex to binary."

def ErrMessageTimestampInFuture : String :=
  "Content <time> timestamp should not be in the future."

def ErrMessageTimestampMissing : String :=
  "Expected content to contain a timestamp tag like `<time datetime=\"YYYY-MM-DDTHH:MM:SSZ\">`."

def ErrMessageTimestampOlderThanCurrent : String :=
  "Content <time> timestamp is older than the timestamp already registered under the given key."

def ErrMessageTimestampTooOld : String :=
  "Content <time> timestamp should not be more than 22 days old."

def ErrMessageTimestampUnparseable : String :=
  "Could not parse timestamp tag. Tag should in standard format and UTC like `<time datetime=\"YYYY-MM-DDTHH:MM:SSZ\">`."

def MessageKeyUpdated : String :=
  "Content for the given key has been updated successfully."

/-- Body of the stable 404 produced by `BoardNotFoundError`. -/
def boardNotFoundMessage (key : String) : String :=
  "Board not found: " ++ goQuote key ++ "."

/-- Body of the 400 produced by `IfModifiedSinceParseError`. -/
def ifModifiedSinceParseMessage (val : String) : String :=
  "Error parsing `If-Modified-Since` header value: " ++ goQuote val ++ "."

def digitAt (c : Char) : Nat := c.toNat - 48

/-- Matcher for the anchored form of `timestampRE`,
`<time datetime="([1-9]\d{3}-(0[1-9]|1[0-2])-\d\dT\d\d:\d\d:\d\dZ)">`:
the pattern is fixed length (38 characters), so a match at the head of the
list is a character-wise check.  On success returns the 20-character
datetime capture group and the remainder after the tag. -/
def matchTimestampTag : List Char → Option (List Char × List Char)
  | '<' :: 't' :: 'i' :: 'm' :: 'e' :: ' ' :: 'd' :: 'a' :: 't' :: 'e' :: 't'
      :: 'i' :: 'm' :: 'e' :: '=' :: '"' :: y1 :: y2 :: y3 :: y4 :: '-' :: m1
      :: m2 :: '-' :: d1 :: d2 :: 'T' :: h1 :: h2 :: ':' :: n1 :: n2 :: ':'
      :: s1 :: s2 :: 'Z' :: '"' :: '>' :: rest =>
    if (49 ≤ y1.toNat && y1.toNat ≤ 57) && isDigitChar y2 && isDigitChar y3
        && isDigitChar y4 && monthCharsOK m1 m2 && isDigitChar d1
        && isDigitChar d2 && isDigitChar h1 && isDigitChar h2 && isDigitChar n1
        && isDigitChar n2 && isDigitChar s1 && isDigitChar s2 then
      some ([y1, y2, y3, y4, '-', m1, m2, '-', d1, d2, 'T', h1, h2, ':',
        n1, n2, ':', s1, s2, 'Z'], rest)
    else none
  | _ => none

/-- `timestampRE.FindStringSubmatch`: leftmost match of the fixed-length
tag pattern.  Returns `(before, match[0], match[1], after)`. -/
def findTimestampTag : List Char → Option (List Char × List Char × List Char × List Char)
  | [] => none
  | c :: rest =>
    match matchTimestampTag (c :: rest) with
    | some (dt, after) => some ([], (c :: rest).take 38, dt, after)
    | none =>
      match findTimestampTag rest with
      | some (before, tag, dt, after) => some (c :: before, tag, dt, after)
      | none => none

/-- Days in a month, as Go's `time` package computes for `time.Parse`
range checks. -/
def goDaysIn (y m : Nat) : Nat :=
  if m = 2 then (if y % 4 = 0 ∧ (y % 100 ≠ 0 ∨ y % 400 = 0) then 29 else 28)
  else if m = 4 ∨ m = 6 ∨ m = 9 ∨ m = 11 then 30 else 31

/-- Go `time.Parse("2006-01-02T15:04:05Z", ...)` applied to the datetime
capture group: the shape is already guaranteed by the regex, so only the
range checks (day within month, hour/minute/second bounds) can fail. -/
def goParseTimestamp : List Char → Option Int
  | [y1, y2, y3, y4, _, m1, m2, _, d1, d2, _, h1, h2, _, n1, n2, _, s1, s2, _] =>
    let y := 1000 * digitAt y1 + 100 * digitAt y2 + 10 * digitAt y3 + digitAt y4
    let mo := 10 * digitAt m1 + digitAt m2
    let d := 10 * digitAt d1 + digitAt d2
    let hh := 10 * digitAt h1 + digitAt h2
    let mi := 10 * digitAt n1 + digitAt n2
    let ss := 10 * digitAt s1 + digitAt s2
    if 1 ≤ d ∧ d ≤ goDaysIn y mo ∧ hh ≤ 23 ∧ mi ≤ 59 ∧ ss ≤ 59 then
      some (goDateTime y mo d hh mi ss)
    else none
  | _ => none

/-- Go `unicode.IsSpace` (the Unicode `White_Space` property). -/
def goIsSpace (c : Char) : Bool :=
  (9 ≤ c.toNat && c.toNat ≤ 13) || c.toNat == 32 || c.toNat == 133
    || c.toNat == 160 || c.toNat == 5760 || (8192 ≤ c.toNat && c.toNat ≤ 8202)
    || c.toNat == 8232 || c.toNat == 8233 || c.toNat == 8239
    || c.toNat == 8287 || c.toNat == 12288

def trimLeftSpace : List Char → List Char
  | [] => []
  | c :: rest => if goIsSpace c then trimLeftSpace rest else c :: rest

/-- Go `strings.TrimSpace`. -/
def goTrimSpace (cs : List Char) : List Char :=
  ((trimLeftSpace (trimLeftSpace cs).reverse)).reverse

/-- Go `strings.Replace(s, pat, "", 1)` for nonempty `pat`: remove the
first occurrence of `pat`, if any. -/
def replaceFirst : List Char → List Char → List Char
  | [], _ => []
  | c :: rest, pat =>
    if pat.isPrefixOf (c :: rest) then (c :: rest).drop pat.length
    else c :: replaceFirst rest pat

/-- `isTimestampOnly`: content whose only non-whitespace is the first
timestamp tag, which the GET handler treats as a deleted board. -/
def isTimestampOnly (content : String) : Bool :=
  match findTimestampTag content.data with
  | none => false
  | some (_, tag, _, _) => goTrimSpace (replaceFirst content.data tag) == ([] : List Char)

structure SError where
  StatusCode : Nat
  Message : String
deriving DecidableEq

inductive HandlerErr where
  | user (e : SError)
  | internal (msg : String)
deriving DecidableEq

structure SResponse where
  StatusCode : Nat
  Body : String
  Header : List (String × String)
deriving DecidableEq

/-- The `nsstore.BoardStore` interface as consumed by the handlers: `Get`
reports a board or an error, `Put` may fail (only the GCP-backed store
ever does). -/
structure StoreOps (σ : Type) where
  get : σ → String → Except StoreErr Board
  put : σ → String → Board → Except String σ

/-- External collaborators of the handlers, modelled as oracles: the deny
list, `ed25519.Verify` against the parsed key's public bytes, the test
keypair's `SignHex`, `time.Parse(http.TimeFormat, ·)`,
`Format(http.TimeFormat)`, and `getRandomQuote()`. -/
structure ServerDeps where
  denyList : List String
  verify : List Nat → String → List Nat → Bool
  signTestHex : String → String
  parseHTTPTime : String → Option Int
  formatHTTPTime : Int → String
  randomQuote : String

/-- The in-memory store as a `StoreOps` at a fixed request time
(`MemoryStore.Put` never fails). -/
def memOps (now : Int) : StoreOps Store :=
  { get := fun s k => memGet now s k, put := fun s k b => .ok (storePut k b s) }

/-- `handleGetKey`.  The request's `now` models `s.timeNow()` (the tests
pin it to a stable instant).  Returns the response-or-error together with
the store state, which only the test-key branch mutates. -/
def handleGetKey {σ : Type} (ops : StoreOps σ) (deps : ServerDeps) (now : Int)
    (s : σ) (key : String) (ifModifiedSince : String) :
    (Except HandlerErr SResponse) × σ :=
  let notFound : Except HandlerErr SResponse :=
    .error (.user ⟨404, boardNotFoundMessage key⟩)
  let respond : Board → σ → (Except HandlerErr SResponse) × σ := fun board s2 =>
    (.ok ⟨200, board.Content,
      [("Last-Modified", deps.formatHTTPTime board.Timestamp),
        ("Spring-Signature", board.Signature),
        ("Spring-Version", "83")]⟩, s2)
  if key == TestPublicKey then
    let content := deps.randomQuote
    let board : Board := ⟨content, deps.signTestHex content, now⟩
    match ops.put s TestPublicKey board with
    | .error e => (.error (.internal e), s)
    | .ok s2 => respond board s2
  else
    match ParseKey key now with
    | .error .expired => (.error (.user ⟨403, ErrMessageKeyExpired⟩), s)
    | .error .invalid => (.error (.user ⟨403, ErrMessageKeyInvalid⟩), s)
    | .error .notYetValid => (.error (.user ⟨403, ErrMessageKeyNotYetValid⟩), s)
    | .error (.other msg) => (.error (.internal msg), s)
    | .ok _ =>
      if deps.denyList.contains key then
        (.error (.user ⟨403, ErrMessageDeniedKey⟩), s)
      else
        match ops.get s key with
        | .error .keyNotFound => (notFound, s)
        | .error (.other msg) => (.error (.internal msg), s)
        | .ok board =>
          if isTimestampOnly board.Content then (notFound, s)
          else if ifModifiedSince != "" then
            match deps.parseHTTPTime ifModifiedSince with
            | none =>
                (.error (.user ⟨400, ifModifiedSinceParseMessage ifModifiedSince⟩), s)
            | some t =>
                if t > board.Timestamp then (notFound, s)
                else respond board s
          else respond board s

/-- `handlePutKey`.  Mirrors the source decision chain; note that the
source returns the success response without ever calling
`s.boardStore.Put`, so the store state is returned unchanged — this is
the defect examined by claims C1 and C6. -/
def handlePutKey {σ : Type} (ops : StoreOps σ) (deps : ServerDeps) (now : Int)
    (s : σ) (key : String) (springSignature : String) (content : String) :
    (Except HandlerErr SResponse) × σ :=
  let result : Except HandlerErr SResponse :=
    if key == TestPublicKey then .error (.user ⟨401, ErrMessageTestKey⟩)
    else match ParseKey key now with
      | .error .expired => .error (.user ⟨403, ErrMessageKeyExpired⟩)
      | .error .invalid => .error (.user ⟨403, ErrMessageKeyInvalid⟩)
      | .error .notYetValid => .error (.user ⟨403, ErrMessageKeyNotYetValid⟩)
      | .error (.other msg) => .error (.internal msg)
      | .ok keyObj =>
        if deps.denyList.contains key then .error (.user ⟨403, ErrMessageDeniedKey⟩)
        else if content.utf8ByteSize > MaxContentSize then
          .error (.user ⟨413, ErrMessageContentTooLarge⟩)
        else if springSignature == "" then
          .error (.user ⟨400, ErrMessageSignatureMissing⟩)
        else match hexDecodePairs springSignature.data with
          | none => .error (.user ⟨400, ErrMessageSignatureUnparseable⟩)
          | some sig =>
            if sig.length != 64 then
              .error (.user ⟨400, ErrMessageSignatureBadLength⟩)
            else if !(deps.verify keyObj.publicKeyBytes content sig) then
              .error (.user ⟨401, ErrMessageSignatureInvalid⟩)
            else match findTimestampTag content.data with
              | none => .error (.user ⟨400, ErrMessageTimestampMissing⟩)
              | some (_, _, dt, _) =>
                match goParseTimestamp dt with
                | none => .error (.user ⟨400, ErrMessageTimestampUnparseable⟩)
                | some timestamp =>
                  if timestamp - TimestampTolerance > now then
                    .error (.user ⟨400, ErrMessageTimestampInFuture⟩)
                  else if timestamp + TimestampTolerance < now - MaxContentAge then
                    .error (.user ⟨400, ErrMessageTimestampTooOld⟩)
                  else match ops.get s key with
                    | .ok board =>
                        if board.Timestamp > timestamp then
                          .error (.user ⟨409, ErrMessageTimestampOlderThanCurrent⟩)
                        else .ok ⟨200, MessageKeyUpdated, [("Spring-Version", "83")]⟩
                    | .error _ => .ok ⟨200, MessageKeyUpdated, [("Spring-Version", "83")]⟩
  (result, s)

/-- C4: a stored board consisting of only a `<time>` tag produces the very
same 404 error, byte for byte, as a key that never existed; the
`If-Modified-Since` header (even an unparseable one) plays no role in
either outcome. -/
theorem c4_soft_delete_indistinguishable (deps : ServerDeps) (now : Int)
    (s1 s2 : Store) (key ims : String) (b : Board) (k : NSKey)
    (hkey : key ≠ TestPublicKey)
    (hparse : ParseKey key now = .ok k)
    (hdeny : deps.denyList.contains key = false)
    (hb : storeLookup s1 key = some b)
    (hts : isTimestampOnly b.Content = true)
    (habsent : storeLookup s2 key = none) :
    (handleGetKey (memOps now) deps now s1 key ims).1
        = .error (.user ⟨404, boardNotFoundMessage key⟩)
      ∧ (handleGetKey (memOps now) deps now s2 key ims).1
        = .error (.user ⟨404, boardNotFoundMessage key⟩) := by
  have hbeq : (key == TestPublicKey) = false := by simp [hkey]
  have hnmem : key ∉ deps.denyList := by simpa using hdeny
  constructor
  · by_cases hexp : now > b.Timestamp + MaxContentAge
    · have hget : memGet now s1 key = .error .keyNotFound := by
        simp [memGet, hb, hexp]
      simp [handleGetKey, hbeq, hparse, hnmem, memOps, hget]
    · have hget : memGet now s1 key = .ok b := by
        simp [memGet, hb, hexp]
      simp [handleGetKey, hbeq, hparse, hnmem, memOps, hget, hts]
  · have hget : memGet now s2 key = .error .keyNotFound := by
      simp [memGet, habsent]
    simp [handleGetKey, hbeq, hparse, hnmem, memOps, hget]

/-- Witness for C4: a board holding only a timestamp tag under the sample
key is indistinguishable from an absent board, even with a garbage
`If-Modified-Since` header. -/
theorem c4_soft_delete_indistinguishable_witness :
    (handleGetKey (memOps c2Now) ⟨[InfernalPublicKey], fun _ _ _ => true,
          fun _ => "", fun _ => none, fun _ => "", "q"⟩ c2Now
        [(c2Key, ⟨"<time datetime=\"2022-11-09T10:11:12Z\">", "sig", c2Now⟩)]
        c2Key "garbage").1
      = .error (.user ⟨404, boardNotFoundMessage c2Key⟩)
    ∧ (handleGetKey (memOps c2Now) ⟨[InfernalPublicKey], fun _ _ _ => true,
          fun _ => "", fun _ => none, fun _ => "", "q"⟩ c2Now
        [] c2Key "garbage").1
      = .error (.user ⟨404, boardNotFoundMessage c2Key⟩) :=
  c4_soft_delete_indistinguishable
    ⟨[InfernalPublicKey], fun _ _ _ => true, fun _ => "", fun _ => none,
      fun _ => "", "q"⟩ c2Now
    [(c2Key, ⟨"<time datetime=\"2022-11-09T10:11:12Z\">", "sig", c2Now⟩)] []
    c2Key "garbage" ⟨"<time datetime=\"2022-11-09T10:11:12Z\">", "sig", c2Now⟩
    ⟨c2Key, [233, 14, 144, 145, 177, 58, 110, 81, 148, 193, 254, 210, 114,
      141, 31, 219, 109, 231, 223, 54, 36, 151, 216, 119, 184, 192, 184, 240,
      136, 62, 17, 36]⟩
    (by decide) (by decide) (by decide) (by decide) (by decide) (by decide)

/-- C10: a GET for the protocol test key bypasses key validation, the deny
list, and all `If-Modified-Since` handling: for any header value (even
unparseable) and any deny list, it responds 200 with a freshly signed
board stamped `now`, and that board is written through to the store. -/
theorem c10_test_key_get_bypasses_checks (deps : ServerDeps) (now : Int)
    (s : Store) (ims : String) :
    handleGetKey (memOps now) deps now s TestPublicKey ims
        = (.ok ⟨200, deps.randomQuote,
            [("Last-Modified", deps.formatHTTPTime now),
              ("Spring-Signature", deps.signTestHex deps.randomQuote),
              ("Spring-Version", "83")]⟩,
          storePut TestPublicKey
            ⟨deps.randomQuote, deps.signTestHex deps.randomQuote, now⟩ s)
      ∧ storeLookup
          (storePut TestPublicKey
            ⟨deps.randomQuote, deps.signTestHex deps.randomQuote, now⟩ s)
          TestPublicKey
        = some ⟨deps.randomQuote, deps.signTestHex deps.randomQuote, now⟩ := by
  constructor
  · simp [handleGetKey, memOps]
  · simp [storeLookup, storePut]

/-- C9: when the store's `Get` fails with any error during the
monotonic-timestamp check — `keyNotFound` or an internal failure alike —
an otherwise valid PUT is answered 200 with the conflict check silently
skipped, never a 500. -/
theorem c9_put_ignores_store_get_errors {σ : Type} (ops : StoreOps σ)
    (deps : ServerDeps) (now : Int) (s : σ) (key springSignature content : String)
    (k : NSKey) (sigBytes : List Nat) (before tag dt after : List Char)
    (ts : Int) (e : StoreErr)
    (hkey : (key == TestPublicKey) = false)
    (hk : ParseKey key now = .ok k)
    (hdeny : deps.denyList.contains key = false)
    (hsize : ¬ content.utf8ByteSize > MaxContentSize)
    (hsig1 : (springSignature == "") = false)
    (hsig2 : hexDecodePairs springSignature.data = some sigBytes)
    (hsig3 : sigBytes.length = 64)
    (hver : deps.verify k.publicKeyBytes content sigBytes = true)
    (htag : findTimestampTag content.data = some (before, tag, dt, after))
    (hts : goParseTimestamp dt = some ts)
    (hfut : ¬ ts - TimestampTolerance > now)
    (hold : ¬ ts + TimestampTolerance < now - MaxContentAge)
    (hget : ops.get s key = .error e) :
    handlePutKey ops deps now s key springSignature content
      = (.ok ⟨200, MessageKeyUpdated, [("Spring-Version", "83")]⟩, s) := by
  have hnmem : key ∉ deps.denyList := by simpa using hdeny
  simp [handlePutKey, hkey, hk, hnmem, hsize, hsig1, hsig2, hsig3, hver, htag,
    hts, hfut, hold, hget]

/-- Oracle instantiation used by concrete runs: deny list seeded with the
infernal key, signature verification accepting (standing in for a
correctly signed request), HTTP-date parsing failing. -/
def testDeps : ServerDeps :=
  ⟨[InfernalPublicKey], fun _ _ _ => true, fun _ => "", fun _ => none,
    fun _ => "", "q"⟩

/-- A valid signed body carrying the stable instant's timestamp. -/
def c1Content : String := "<time datetime=\"2022-11-09T10:11:12Z\"> hi"

/-- A 128-hex-character signature header (64 bytes). -/
def c1Sig : String :=
  "aaaaaaaaaaaaaaaaaaaaaaaaaaaaaaaaaaaaaaaaaaaaaaaaaaaaaaaaaaaaaaaaaaaaaaaaaaaaaaaaaaaaaaaaaaaaaaaaaaaaaaaaaaaaaaaaaaaaaaaaaaaaaaaa"

/-- The sample key's decoded public-key bytes. -/
def c2KeyObj : NSKey :=
  ⟨c2Key, [233, 14, 144, 145, 177, 58, 110, 81, 148, 193, 254, 210, 114, 141,
    31, 219, 109, 231, 223, 54, 36, 151, 216, 119, 184, 192, 184, 240, 136,
    62, 17, 36]⟩

/-- C1 (code bug): a PUT that passes every validation on an empty store is
answered 200 with the success message, yet the handler never writes the
board — the store it returns is unchanged, and an immediately following
GET for the same key answers the not-found 404. -/
theorem c1_put_returns_200_without_persisting :
    handlePutKey (memOps c2Now) testDeps c2Now [] c2Key c1Sig c1Content
        = (.ok ⟨200, MessageKeyUpdated, [("Spring-Version", "83")]⟩, [])
      ∧ (handleGetKey (memOps c2Now) testDeps c2Now [] c2Key "").1
        = .error (.user ⟨404, boardNotFoundMessage c2Key⟩) :=
  ⟨by decide, by decide⟩

/-- Witness for C9: an internal store failure during the conflict check
still yields 200. -/
theorem c9_put_ignores_store_get_errors_witness :
    (⟨fun _ _ => .error (.other "store exploded"),
        fun s k b => .ok (storePut k b s)⟩ : StoreOps Store).get [] c2Key
        = .error (.other "store exploded")
      ∧ handlePutKey
          ⟨fun _ _ => .error (.other "store exploded"),
            fun s k b => .ok (storePut k b s)⟩
          testDeps c2Now [] c2Key c1Sig c1Content
        = (.ok ⟨200, MessageKeyUpdated, [("Spring-Version", "83")]⟩, []) :=
  ⟨rfl,
    c9_put_ignores_store_get_errors
      ⟨fun _ _ => .error (.other "store exploded"),
        fun s k b => .ok (storePut k b s)⟩
      testDeps c2Now [] c2Key c1Sig c1Content c2KeyObj (List.replicate 64 170)
      "".data "<time datetime=\"2022-11-09T10:11:12Z\">".data
      "2022-11-09T10:11:12Z".data " hi".data c2Now (.other "store exploded")
      (by decide) (by decide) (by decide) (by decide) (by decide) (by decide)
      (by decide) (by decide) (by decide) (by decide) (by decide) (by decide)
      rfl⟩

/-- C5: the counterexample to the claim as stated.  The store holds a
board for the key whose timestamp is strictly after the submitted `ts`,
the request is neither in the future nor too old, yet the handler answers
200 rather than 409 — the stored board is 22 days stale, so the conflict
check's `Get` hides it. -/
def c5Content : String := "<time datetime=\"2022-10-18T10:07:12Z\"> x"

/-- Submitted timestamp of the counterexample: `now − 22d − 4min`. -/
def c5Ts : Int := goDateTime 2022 10 18 10 7 12

/-- Stored board of the counterexample: timestamp `now − 22d − 2min`,
strictly newer than `c5Ts` but already expired. -/
def c5Stored : Board := ⟨"old", "s", goDateTime 2022 10 18 10 9 12⟩

theorem c5_counterexample :
    (handlePutKey (memOps c2Now) testDeps c2Now [(c2Key, c5Stored)] c2Key
          c1Sig c5Content).1
        = .ok ⟨200, MessageKeyUpdated, [("Spring-Version", "83")]⟩
      ∧ storeLookup [(c2Key, c5Stored)] c2Key = some c5Stored
      ∧ findTimestampTag c5Content.data
          = some ("".data, "<time datetime=\"2022-10-18T10:07:12Z\">".data,
              "2022-10-18T10:07:12Z".data, " x".data)
      ∧ goParseTimestamp "2022-10-18T10:07:12Z".data = some c5Ts
      ∧ ¬ c5Ts - TimestampTolerance > c2Now
      ∧ ¬ c5Ts + TimestampTolerance < c2Now - MaxContentAge
      ∧ c5Stored.Timestamp > c5Ts :=
  ⟨by decide, by decide, by decide, by decide, by decide, by decide, by decide⟩

/-- C5 (amended): for a PUT with valid key, signature and parseable
timestamp `ts`: 400 future iff `ts − 5min > now`; otherwise 400 too-old
iff `ts + 5min < now − 22d`; otherwise 409 iff the store holds an
*unexpired* board (`now ≤ stored + 22d`) whose timestamp is strictly
after `ts` (an expired stored board is invisible to the conflict check,
and an equal timestamp never conflicts); otherwise 200. -/
theorem c5_put_timestamp_decision (deps : ServerDeps) (now : Int) (s : Store)
    (key springSignature content : String) (k : NSKey) (sigBytes : List Nat)
    (before tag dt after : List Char) (ts : Int)
    (hkey : (key == TestPublicKey) = false)
    (hk : ParseKey key now = .ok k)
    (hdeny : deps.denyList.contains key = false)
    (hsize : ¬ content.utf8ByteSize > MaxContentSize)
    (hsig1 : (springSignature == "") = false)
    (hsig2 : hexDecodePairs springSignature.data = some sigBytes)
    (hsig3 : sigBytes.length = 64)
    (hver : deps.verify k.publicKeyBytes content sigBytes = true)
    (htag : findTimestampTag content.data = some (before, tag, dt, after))
    (hts : goParseTimestamp dt = some ts) :
    ((handlePutKey (memOps now) deps now s key springSignature content).1
        = .error (.user ⟨400, ErrMessageTimestampInFuture⟩)
      ↔ ts - TimestampTolerance > now)
    ∧ ((handlePutKey (memOps now) deps now s key springSignature content).1
        = .error (.user ⟨400, ErrMessageTimestampTooOld⟩)
      ↔ (¬ ts - TimestampTolerance > now
          ∧ ts + TimestampTolerance < now - MaxContentAge))
    ∧ ((handlePutKey (memOps now) deps now s key springSignature content).1
        = .error (.user ⟨409, ErrMessageTimestampOlderThanCurrent⟩)
      ↔ (¬ ts - TimestampTolerance > now
          ∧ ¬ ts + TimestampTolerance < now - MaxContentAge
          ∧ ∃ b, storeLookup s key = some b
              ∧ ¬ now > b.Timestamp + MaxContentAge ∧ b.Timestamp > ts))
    ∧ ((handlePutKey (memOps now) deps now s key springSignature content).1
        = .ok ⟨200, MessageKeyUpdated, [("Spring-Version", "83")]⟩
      ↔ (¬ ts - TimestampTolerance > now
          ∧ ¬ ts + TimestampTolerance < now - MaxContentAge
          ∧ ¬ ∃ b, storeLookup s key = some b
              ∧ ¬ now > b.Timestamp + MaxContentAge ∧ b.Timestamp > ts)) := by
  have hnmem : key ∉ deps.denyList := by simpa using hdeny
  have hne12 : (Except.error (HandlerErr.user ⟨400, ErrMessageTimestampInFuture⟩)
      : Except HandlerErr SResponse)
      ≠ .error (.user ⟨400, ErrMessageTimestampTooOld⟩) := by decide
  have hne13 : (Except.error (HandlerErr.user ⟨400, ErrMessageTimestampInFuture⟩)
      : Except HandlerErr SResponse)
      ≠ .error (.user ⟨409, ErrMessageTimestampOlderThanCurrent⟩) := by decide
  have hne23 : (Except.error (HandlerErr.user ⟨400, ErrMessageTimestampTooOld⟩)
      : Except HandlerErr SResponse)
      ≠ .error (.user ⟨409, ErrMessageTimestampOlderThanCurrent⟩) := by decide
  by_cases hfut : ts - TimestampTolerance > now
  · have hr : (handlePutKey (memOps now) deps now s key springSignature content).1
        = .error (.user ⟨400, ErrMessageTimestampInFuture⟩) := by
      simp [handlePutKey, hkey, hk, hnmem, hsize, hsig1, hsig2, hsig3, hver,
        htag, hts, hfut]
    rw [hr]
    refine ⟨⟨fun _ => hfut, fun _ => rfl⟩, ?_, ?_, ?_⟩
    · exact ⟨fun h => absurd h hne12, fun h => absurd hfut h.1⟩
    · exact ⟨fun h => absurd h hne13, fun h => absurd hfut h.1⟩
    · exact ⟨fun h => Except.noConfusion h, fun h => absurd hfut h.1⟩
  · by_cases hold : ts + TimestampTolerance < now - MaxContentAge
    · have hr : (handlePutKey (memOps now) deps now s key springSignature content).1
          = .error (.user ⟨400, ErrMessageTimestampTooOld⟩) := by
        simp [handlePutKey, hkey, hk, hnmem, hsize, hsig1, hsig2, hsig3, hver,
          htag, hts, hfut, hold]
      rw [hr]
      refine ⟨?_, ⟨fun _ => ⟨hfut, hold⟩, fun _ => rfl⟩, ?_, ?_⟩
      · exact ⟨fun h => absurd h.symm hne12, fun h => absurd h hfut⟩
      · exact ⟨fun h => absurd h hne23, fun h => absurd hold h.2.1⟩
      · exact ⟨fun h => Except.noConfusion h, fun h => absurd hold h.2.1⟩
    · rcases hlook : storeLookup s key with _ | b
      · have hget : memGet now s key = .error .keyNotFound := by
          simp [memGet, hlook]
        have hr : (handlePutKey (memOps now) deps now s key springSignature content).1
            = .ok ⟨200, MessageKeyUpdated, [("Spring-Version", "83")]⟩ := by
          simp [handlePutKey, hkey, hk, hnmem, hsize, hsig1, hsig2, hsig3,
            hver, htag, hts, hfut, hold, memOps, hget]
        rw [hr]
        refine ⟨?_, ?_, ?_, ?_⟩
        · exact ⟨fun h => Except.noConfusion h, fun h => absurd h hfut⟩
        · exact ⟨fun h => Except.noConfusion h, fun h => absurd h.2 hold⟩
        · constructor
          · intro h
            exact Except.noConfusion h
          · rintro ⟨-, -, b, hb, -⟩
            exact Option.noConfusion hb
        · constructor
          · intro _
            refine ⟨hfut, hold, ?_⟩
            rintro ⟨b, hb, -⟩
            exact Option.noConfusion hb
          · intro _
            rfl
      · by_cases hexp : now > b.Timestamp + MaxContentAge
        · have hget : memGet now s key = .error .keyNotFound := by
            simp [memGet, hlook, hexp]
          have hr : (handlePutKey (memOps now) deps now s key springSignature content).1
              = .ok ⟨200, MessageKeyUpdated, [("Spring-Version", "83")]⟩ := by
            simp [handlePutKey, hkey, hk, hnmem, hsize, hsig1, hsig2, hsig3,
              hver, htag, hts, hfut, hold, memOps, hget]
          rw [hr]
          refine ⟨?_, ?_, ?_, ?_⟩
          · exact ⟨fun h => Except.noConfusion h, fun h => absurd h hfut⟩
          · exact ⟨fun h => Except.noConfusion h, fun h => absurd h.2 hold⟩
          · constructor
            · intro h
              exact Except.noConfusion h
            · rintro ⟨-, -, b2, hb2, hne, -⟩
              have hbb : b = b2 := Option.some.inj hb2
              exact absurd (hbb ▸ hexp) hne
          · constructor
            · intro _
              refine ⟨hfut, hold, ?_⟩
              rintro ⟨b2, hb2, hne, -⟩
              have hbb : b = b2 := Option.some.inj hb2
              exact absurd (hbb ▸ hexp) hne
            · intro _
              rfl
        · have hget : memGet now s key = .ok b := by
            simp [memGet, hlook, hexp]
          by_cases hconf : b.Timestamp > ts
          · have hr : (handlePutKey (memOps now) deps now s key springSignature content).1
                = .error (.user ⟨409, ErrMessageTimestampOlderThanCurrent⟩) := by
              simp [handlePutKey, hkey, hk, hnmem, hsize, hsig1, hsig2, hsig3,
                hver, htag, hts, hfut, hold, memOps, hget, hconf]
            rw [hr]
            refine ⟨?_, ?_, ?_, ?_⟩
            · exact ⟨fun h => absurd h.symm hne13, fun h => absurd h hfut⟩
            · exact ⟨fun h => absurd h.symm hne23, fun h => absurd h.2 hold⟩
            · exact ⟨fun _ => ⟨hfut, hold, b, rfl, hexp, hconf⟩, fun _ => rfl⟩
            · constructor
              · intro h
                exact Except.noConfusion h
              · rintro ⟨-, -, hn⟩
                exact absurd ⟨b, rfl, hexp, hconf⟩ hn
          · have hr : (handlePutKey (memOps now) deps now s key springSignature content).1
                = .ok ⟨200, MessageKeyUpdated, [("Spring-Version", "83")]⟩ := by
              simp [handlePutKey, hkey, hk, hnmem, hsize, hsig1, hsig2, hsig3,
                hver, htag, hts, hfut, hold, memOps, hget, hconf]
            rw [hr]
            refine ⟨?_, ?_, ?_, ?_⟩
            · exact ⟨fun h => Except.noConfusion h, fun h => absurd h hfut⟩
            · exact ⟨fun h => Except.noConfusion h, fun h => absurd h.2 hold⟩
            · constructor
              · intro h
                exact Except.noConfusion h
              · rintro ⟨-, -, b2, hb2, -, hgt⟩
                have hbb : b = b2 := Option.some.inj hb2
                exact absurd (hbb ▸ hgt) hconf
            · constructor
              · intro _
                refine ⟨hfut, hold, ?_⟩
                rintro ⟨b2, hb2, -, hgt⟩
                have hbb : b = b2 := Option.some.inj hb2
                exact absurd (hbb ▸ hgt) hconf
              · intro _
                rfl

/-- Witness for the C5 decision theorem at a concrete input: a valid PUT
for the sample key at the exact current time on an empty store falls into
the 200 branch of the decision. -/
theorem c5_put_timestamp_decision_witness :
    ((handlePutKey (memOps c2Now) testDeps c2Now [] c2Key c1Sig c1Content).1
        = .error (.user ⟨400, ErrMessageTimestampInFuture⟩)
      ↔ c2Now - TimestampTolerance > c2Now)
    ∧ ((handlePutKey (memOps c2Now) testDeps c2Now [] c2Key c1Sig c1Content).1
        = .error (.user ⟨400, ErrMessageTimestampTooOld⟩)
      ↔ (¬ c2Now - TimestampTolerance > c2Now
          ∧ c2Now + TimestampTolerance < c2Now - MaxContentAge))
    ∧ ((handlePutKey (memOps c2Now) testDeps c2Now [] c2Key c1Sig c1Content).1
        = .error (.user ⟨409, ErrMessageTimestampOlderThanCurrent⟩)
      ↔ (¬ c2Now - TimestampTolerance > c2Now
          ∧ ¬ c2Now + TimestampTolerance < c2Now - MaxContentAge
          ∧ ∃ b, storeLookup [] c2Key = some b
              ∧ ¬ c2Now > b.Timestamp + MaxContentAge ∧ b.Timestamp > c2Now))
    ∧ ((handlePutKey (memOps c2Now) testDeps c2Now [] c2Key c1Sig c1Content).1
        = .ok ⟨200, MessageKeyUpdated, [("Spring-Version", "83")]⟩
      ↔ (¬ c2Now - TimestampTolerance > c2Now
          ∧ ¬ c2Now + TimestampTolerance < c2Now - MaxContentAge
          ∧ ¬ ∃ b, storeLookup [] c2Key = some b
              ∧ ¬ c2Now > b.Timestamp + MaxContentAge ∧ b.Timestamp > c2Now)) :=
  c5_put_timestamp_decision testDeps c2Now [] c2Key c1Sig c1Content c2KeyObj
    (List.replicate 64 170) []
    ("<time datetime=\x22" ++ "2022-11-09T10:11:12Z" ++ "\x22>").data
    "2022-11-09T10:11:12Z".data " hi".data c2Now
    (by decide) (by decide) (by decide) (by decide) (by decide) (by decide)
    (by decide) (by decide) (by decide) (by decide)

/-- A client request: a GET carrying its `If-Modified-Since` header and
the random quote the server would draw for the test-key branch, or a PUT
carrying its `Spring-Signature` and body. -/
inductive ServerOp where
  | get (key ims quote : String)
  | put (key sig content : String)

/-- Process one request at time `t` against the in-memory store.  For a
GET the drawn quote replaces the `randomQuote` oracle, so distinct
requests may observe distinct quotes. -/
def stepOp (deps : ServerDeps) (t : Int) (s : Store) : ServerOp → Store
  | .get key ims quote =>
      (handleGetKey (memOps t)
        ⟨deps.denyList, deps.verify, deps.signTestHex, deps.parseHTTPTime,
          deps.formatHTTPTime, quote⟩ t s key ims).2
  | .put key sig content =>
      (handlePutKey (memOps t) deps t s key sig content).2

/-- Process a sequence of timestamped requests in order. -/
def runOps (deps : ServerDeps) : Store → List (Int × ServerOp) → Store
  | s, [] => s
  | s, (t, op) :: rest => runOps deps (stepOp deps t s op) rest

/-- Every board in the store carries a timestamp at most `t`. -/
def storeTimesLE (s : Store) (t : Int) : Prop :=
  ∀ k b, storeLookup s k = some b → b.Timestamp ≤ t

theorem storeTimesLE_mono {s : Store} {t1 t2 : Int} (h : storeTimesLE s t1)
    (hle : t1 ≤ t2) : storeTimesLE s t2 :=
  fun k b hb => le_trans (h k b hb) hle

theorem storeLookup_storePut (key : String) (b : Board) (s : Store)
    (k : String) :
    storeLookup (storePut key b s) k
      = if key == k then some b else storeLookup s k := rfl

/-- `handleGetKey` either leaves the store untouched, or (exactly on the
test key) replaces the test key's board with a freshly signed quote
stamped at the request time. -/
theorem handleGetKey_state (deps : ServerDeps) (t : Int) (s : Store)
    (key ims : String) :
    (handleGetKey (memOps t) deps t s key ims).2 = s
    ∨ ((key == TestPublicKey) = true
        ∧ (handleGetKey (memOps t) deps t s key ims).2
          = storePut TestPublicKey
              ⟨deps.randomQuote, deps.signTestHex deps.randomQuote, t⟩ s) := by
  by_cases hkey : (key == TestPublicKey) = true
  · right
    refine ⟨hkey, ?_⟩
    simp [handleGetKey, hkey, memOps, storePut]
  · left
    have hkey2 : (key == TestPublicKey) = false := by simpa using hkey
    rcases hp : ParseKey key t with e | k
    · cases e <;> simp [handleGetKey, hkey2, hp]
    · by_cases hdeny : deps.denyList.contains key = true
      · have hd3 : key ∈ deps.denyList := by simpa using hdeny
        simp [handleGetKey, hkey2, hp, hdeny, hd3]
      · have hd2 : key ∉ deps.denyList := by simpa using hdeny
        rcases hg : memGet t s key with ge | b
        · cases ge <;> simp [handleGetKey, hkey2, hp, hd2, memOps, hg]
        · by_cases hts : isTimestampOnly b.Content = true
          · simp [handleGetKey, hkey2, hp, hd2, memOps, hg, hts]
          · have hts2 : isTimestampOnly b.Content = false := by simpa using hts
            by_cases hims : ims = ""
            · simp [handleGetKey, hkey2, hp, hd2, memOps, hg, hts2, hims]
            · have himsf : (ims == "") = false := by simpa using hims
              rcases hpt : deps.parseHTTPTime ims with _ | pt
              · simp [handleGetKey, hkey2, hp, hd2, memOps, hg, hts2, himsf,
                  hims, hpt]
              · by_cases hgt : pt > b.Timestamp
                · simp [handleGetKey, hkey2, hp, hd2, memOps, hg, hts2, himsf,
                    hims, hpt, hgt]
                · simp [handleGetKey, hkey2, hp, hd2, memOps, hg, hts2, himsf,
                    hims, hpt, hgt]

/-- A single request either leaves the store untouched or pushes a board
stamped at the request time under the test key. -/
theorem stepOp_state (deps : ServerDeps) (t : Int) (s : Store)
    (op : ServerOp) :
    stepOp deps t s op = s
    ∨ ∃ q, stepOp deps t s op
        = storePut TestPublicKey ⟨q, deps.signTestHex q, t⟩ s := by
  cases op with
  | put key sig content => exact Or.inl rfl
  | get key ims quote =>
    rcases handleGetKey_state ⟨deps.denyList, deps.verify, deps.signTestHex,
        deps.parseHTTPTime, deps.formatHTTPTime, quote⟩ t s key ims
      with h | ⟨_, h⟩
    · exact Or.inl h
    · exact Or.inr ⟨quote, h⟩

/-- A request at time `t` preserves the store-wide timestamp bound. -/
theorem stepOp_timesLE {deps : ServerDeps} {t0 t : Int} {s : Store}
    {op : ServerOp} (h : storeTimesLE s t0) (hle : t0 ≤ t) :
    storeTimesLE (stepOp deps t s op) t := by
  rcases stepOp_state deps t s op with he | ⟨q, he⟩
  · rw [he]
    exact storeTimesLE_mono h hle
  · rw [he]
    intro k b hb
    rw [storeLookup_storePut] at hb
    by_cases hk : (TestPublicKey == k) = true
    · rw [if_pos hk] at hb
      cases hb
      exact le_refl t
    · rw [if_neg hk] at hb
      exact le_trans (h k b hb) hle

/-- Core of C6: a tracked board survives a strictly time-increasing run of
requests either unchanged or superseded by a strictly newer board. -/
theorem runOps_lookup (deps : ServerDeps) (ops : List (Int × ServerOp)) :
    ∀ (t0 : Int) (s : Store) (b : Board) (k : String),
      storeTimesLE s t0 →
      List.Chain (fun a c => a < c) t0 (List.map Prod.fst ops) →
      storeLookup s k = some b →
      storeLookup (runOps deps s ops) k = some b
      ∨ ∃ b2, storeLookup (runOps deps s ops) k = some b2
          ∧ b2.Timestamp > b.Timestamp := by
  induction ops with
  | nil =>
    intro t0 s b k _ _ hb
    exact Or.inl hb
  | cons hd rest ih =>
    obtain ⟨t, op⟩ := hd
    intro t0 s b k hinv hchain hb
    rw [List.map_cons, List.chain_cons] at hchain
    obtain ⟨hlt, hchain2⟩ := hchain
    have hinv2 : storeTimesLE (stepOp deps t s op) t :=
      stepOp_timesLE hinv (le_of_lt hlt)
    have hrun : runOps deps s ((t, op) :: rest)
        = runOps deps (stepOp deps t s op) rest := rfl
    rw [hrun]
    rcases stepOp_state deps t s op with he | ⟨q, he⟩
    · exact ih t (stepOp deps t s op) b k hinv2 hchain2 (by rw [he]; exact hb)
    · by_cases hk : (TestPublicKey == k) = true
      · have hb2 : storeLookup (stepOp deps t s op) k
            = some ⟨q, deps.signTestHex q, t⟩ := by
          rw [he, storeLookup_storePut, if_pos hk]
        have hblt : b.Timestamp < t := lt_of_le_of_lt (hinv k b hb) hlt
        rcases ih t (stepOp deps t s op) ⟨q, deps.signTestHex q, t⟩ k hinv2
            hchain2 hb2 with hfin | ⟨b2, hfin, hgt⟩
        · exact Or.inr ⟨⟨q, deps.signTestHex q, t⟩, hfin, hblt⟩
        · exact Or.inr ⟨b2, hfin, lt_trans hblt hgt⟩
      · have hb2 : storeLookup (stepOp deps t s op) k = some b := by
          rw [he, storeLookup_storePut, if_neg hk]
          exact hb
        exact ih t (stepOp deps t s op) b k hinv2 hchain2 hb2

/-- C6 (amended): for every key `k` and strictly time-increasing sequence
of GET/PUT requests against a store whose boards are all dated no later
than the start time, the timestamp of the board stored under `k` never
decreases, and a later `Get(k)` either returns the tracked board
unchanged, returns key-not-found (in particular due to 22-day expiry), or
returns a superseding board with a strictly greater timestamp.  (Contrary
to the original claim, replacement is not effected by accepted PUTs —
which never persist, see C1 — but by the test-key GET refresh path.) -/
theorem c6_timestamps_never_decrease (deps : ServerDeps) (t0 now2 : Int)
    (s : Store) (ops : List (Int × ServerOp)) (k : String) (b : Board)
    (hinv : storeTimesLE s t0)
    (hchain : List.Chain (fun a c => a < c) t0 (List.map Prod.fst ops))
    (hb : storeLookup s k = some b) :
    memGet now2 (runOps deps s ops) k = .ok b
    ∨ memGet now2 (runOps deps s ops) k = .error .keyNotFound
    ∨ ∃ b2, memGet now2 (runOps deps s ops) k = .ok b2
        ∧ b2.Timestamp > b.Timestamp := by
  rcases runOps_lookup deps ops t0 s b k hinv hchain hb
    with hl | ⟨b2, hl, hgt⟩
  · by_cases hexp : now2 > b.Timestamp + MaxContentAge
    · right
      left
      simp [memGet, hl, hexp]
    · left
      simp [memGet, hl, hexp]
  · by_cases hexp : now2 > b2.Timestamp + MaxContentAge
    · right
      left
      simp [memGet, hl, hexp]
    · right
      right
      exact ⟨b2, by simp [memGet, hl, hexp], hgt⟩

/-- Counterexample to C6 as stated: the sequence consists of a single GET
(no PUT anywhere), yet the board stored under the test key is replaced by
a fresh quote board, so "replaced only by an accepted PUT" fails. -/
theorem c6_counterexample :
    runOps testDeps [(TestPublicKey, ⟨"old", "sg", 0⟩)]
        [(5, ServerOp.get TestPublicKey "" "new")]
      = [(TestPublicKey, ⟨"new", "", 5⟩), (TestPublicKey, ⟨"old", "sg", 0⟩)]
    ∧ storeLookup (runOps testDeps [(TestPublicKey, ⟨"old", "sg", 0⟩)]
        [(5, ServerOp.get TestPublicKey "" "new")]) TestPublicKey
      ≠ some ⟨"old", "sg", 0⟩ := by
  constructor
  · rfl
  · decide

/-- Witness for the amended C6 at a concrete run: starting from a store
holding a board dated 0 under the test key, after a GET at time 5 a read
at time 6 lands in one of the three allowed outcomes. -/
theorem c6_timestamps_never_decrease_witness :
    memGet 6 (runOps testDeps [(TestPublicKey, ⟨"old", "sg", 0⟩)]
        [(5, ServerOp.get TestPublicKey "" "new")]) TestPublicKey
      = .ok ⟨"old", "sg", 0⟩
    ∨ memGet 6 (runOps testDeps [(TestPublicKey, ⟨"old", "sg", 0⟩)]
        [(5, ServerOp.get TestPublicKey "" "new")]) TestPublicKey
      = .error .keyNotFound
    ∨ ∃ b2, memGet 6 (runOps testDeps [(TestPublicKey, ⟨"old", "sg", 0⟩)]
        [(5, ServerOp.get TestPublicKey "" "new")]) TestPublicKey
      = .ok b2 ∧ b2.Timestamp > (⟨"old", "sg", 0⟩ : Board).Timestamp :=
  c6_timestamps_never_decrease testDeps 0 6
    [(TestPublicKey, ⟨"old", "sg", 0⟩)]
    [(5, ServerOp.get TestPublicKey "" "new")] TestPublicKey ⟨"old", "sg", 0⟩
    (by
      intro k b hb
      have hb2 : storeLookup (storePut TestPublicKey ⟨"old", "sg", 0⟩ []) k
          = some b := hb
      rw [storeLookup_storePut] at hb2
      by_cases hk : (TestPublicKey == k) = true
      · rw [if_pos hk] at hb2
        cases hb2
        exact le_refl 0
      · rw [if_neg hk] at hb2
        exact Option.noConfusion hb2)
    (List.Chain.cons (by decide) List.Chain.nil)
    (by decide)
